import Mathlib

/-!
# Verification of the onion-forge calculator engine

Shallow embedding of `src/assets/js/calculator.js`: the `CalculationEngine`
(validation, tokenizer, shunting-yard conversion, RPN evaluation, rounding)
and the `CalculatorState` interaction state machine.

Modelling conventions:
* JavaScript numbers are modelled as `ℚ`.  The value `NaN` is modelled as
  `none` in `Option ℚ` (written `JsNum` below); every finite number is
  `some q`.  `Infinity` cannot arise in `ℚ` (no rounding to infinity), so
  the overflow branch of the source is unreachable in the model.
* JavaScript strings are modelled as `List Char`.
* Exceptions (`CalculatorError` with its `type` tag) are modelled with
  `Except ErrKind`.
* `new Date().toISOString()` timestamps are modelled by a monotone `Nat`
  clock carried in the state and stamped into history entries.
-/

set_option maxRecDepth 4000

/-- The four error kinds of `CalculatorError.ERROR_TYPES` that the engine
and state machine actually raise (`UNDERFLOW` is declared but never used). -/
inductive ErrKind where
  | divisionByZero
  | invalidInput
  | overflow
  | syntaxError
deriving DecidableEq, Repr

instance {ε α : Type} [DecidableEq ε] [DecidableEq α] : DecidableEq (Except ε α) :=
  fun a b =>
    match a, b with
    | .error x, .error y =>
      if h : x = y then isTrue (by rw [h]) else isFalse (by intro hh; cases hh; exact h rfl)
    | .ok x, .ok y =>
      if h : x = y then isTrue (by rw [h]) else isFalse (by intro hh; cases hh; exact h rfl)
    | .error _, .ok _ => isFalse (by intro h; cases h)
    | .ok _, .error _ => isFalse (by intro h; cases h)

/-- A JavaScript number: `some q` is a finite value, `none` is `NaN`. -/
abbrev JsNum := Option ℚ

/-- Character class of the source regex `/[0-9]/` used by `_isDigit`. -/
def isDigitChar (c : Char) : Bool := c.isDigit

/-- The ASCII whitespace characters matched by the `\s` class of the
validation regex (the model restricts `\s` to ASCII). -/
def isWhiteChar (c : Char) : Bool :=
  decide (c = ' ' ∨ c = '\t' ∨ c = '\n' ∨ c = '\r' ∨ c = '\x0b' ∨ c = '\x0c')

/-- A digit or a decimal point: the characters the tokenizer accumulates
into a number run. -/
def digitDot (c : Char) : Bool := isDigitChar c || c = '.'

/-- The five operator symbols of `CONFIG.OPERATORS`. -/
def opChars : List Char := ['+', '-', '*', '/', '%']

/-- `CONFIG.ERROR_MESSAGE`. -/
def errorMessage : List Char := ['E', 'r', 'r', 'o', 'r']

/-- `CONFIG.DEFAULT_DISPLAY_VALUE`. -/
def defaultDisplay : List Char := ['0']

/-! ## Concrete operations (`AdditionOperation` … `ModuloOperation`) -/

/-- Kernel-computable addition on `ℚ` (proved equal to `· + ·` below;
Batteries marks `Rat.add` irreducible, which blocks `decide`). -/
def qAdd (a b : ℚ) : ℚ := mkRat (a.num * b.den + b.num * a.den) (a.den * b.den)

/-- Kernel-computable subtraction on `ℚ` (proved equal to `· - ·` below). -/
def qSub (a b : ℚ) : ℚ := mkRat (a.num * b.den - b.num * a.den) (a.den * b.den)

/-- Kernel-computable multiplication on `ℚ` (proved equal to `· * ·` below). -/
def qMul (a b : ℚ) : ℚ := mkRat (a.num * b.num) (a.den * b.den)

/-- Kernel-computable division on `ℚ` (proved equal to `· / ·` below). -/
def qDiv (a b : ℚ) : ℚ := Rat.divInt (a.num * b.den) (a.den * b.num)

/-- Kernel-reducible strict order on `ℚ` (numerator/denominator form). -/
def ratLt (a b : ℚ) : Bool := decide (a.num * (b.den : ℤ) < b.num * (a.den : ℤ))

/-- JavaScript truncation toward zero, used by the `%` operator. -/
def jsTrunc (q : ℚ) : ℤ := if 0 ≤ q.num then q.floor else -((-q).floor)

/-- JavaScript `a % b` on finite numbers with `b ≠ 0`: remainder with the
sign of the dividend (truncated division). -/
def jsMod (a b : ℚ) : ℚ := qSub a (qMul b (mkRat (jsTrunc (qDiv a b)) 1))

/-- `AdditionOperation.execute`. -/
def AdditionOperation.execute (a b : ℚ) : ℚ := qAdd a b

/-- `SubtractionOperation.execute`. -/
def SubtractionOperation.execute (a b : ℚ) : ℚ := qSub a b

/-- `MultiplicationOperation.execute`. -/
def MultiplicationOperation.execute (a b : ℚ) : ℚ := qMul a b

/-- `DivisionOperation.execute`: throws `DIVISION_BY_ZERO` when the right
operand is exactly `0`, otherwise divides. -/
def DivisionOperation.execute (a b : ℚ) : Except ErrKind ℚ :=
  if b = 0 then .error .divisionByZero else .ok (qDiv a b)

/-- `ModuloOperation.execute`: throws `DIVISION_BY_ZERO` when the right
operand is exactly `0`, otherwise takes the JavaScript remainder. -/
def ModuloOperation.execute (a b : ℚ) : Except ErrKind ℚ :=
  if b = 0 then .error .divisionByZero else .ok (jsMod a b)

/-- `OperationFactory.isOperator` on a token string. -/
def isOpTok (t : List Char) : Bool :=
  decide (t = ['+'] ∨ t = ['-'] ∨ t = ['*'] ∨ t = ['/'] ∨ t = ['%'])

/-- The `precedence` field given to each operation by its constructor:
`+`/`-` are 1, `*`/`/`/`%` are 2 (0 for non-operators, unused). -/
def tokPrec (t : List Char) : ℕ :=
  if t = ['+'] ∨ t = ['-'] then 1
  else if t = ['*'] ∨ t = ['/'] ∨ t = ['%'] then 2
  else 0

/-- Dispatch of `OperationFactory.createOperation(token).execute(a, b)` on
finite operands; an unknown symbol is the factory's `INVALID_INPUT`. -/
def execOp (t : List Char) (a b : ℚ) : Except ErrKind ℚ :=
  if t = ['+'] then .ok (AdditionOperation.execute a b)
  else if t = ['-'] then .ok (SubtractionOperation.execute a b)
  else if t = ['*'] then .ok (MultiplicationOperation.execute a b)
  else if t = ['/'] then DivisionOperation.execute a b
  else if t = ['%'] then ModuloOperation.execute a b
  else .error .invalidInput

/-- `execute` on JavaScript numbers including `NaN`: the `b === 0` guard of
division/modulo sees `NaN` as non-zero, and any arithmetic on `NaN`
produces `NaN` (`none`). -/
def execNum (t : List Char) (a b : JsNum) : Except ErrKind JsNum :=
  match a, b with
  | some x, some y => (execOp t x y).map some
  | _, _ =>
    if (t = ['/'] ∨ t = ['%']) ∧ b = some 0 then .error .divisionByZero
    else .ok none

/-! ## Validation (`CalculationEngine._validateExpression`) -/

/-- ASCII lower-casing, modelling the `i` flag of the denylist regexes. -/
def lowerStr (s : List Char) : List Char := s.map Char.toLower

/-- Substring test (`RegExp.test` for a literal pattern). -/
def hasInfixStr (pat : List Char) : List Char → Bool
  | [] => pat.isEmpty
  | c :: rest => pat.isPrefixOf (c :: rest) || hasInfixStr pat rest

/-- Matcher for `/new\s+Function/i` on an (already lower-cased) string:
somewhere, `new`, then at least one whitespace, then `function`. -/
def hasNewFunction : List Char → Bool
  | [] => false
  | c :: rest =>
    (['n', 'e', 'w'].isPrefixOf (c :: rest)
      && (let r := (c :: rest).drop 3
          ¬(r.takeWhile isWhiteChar).isEmpty
            && ['f', 'u', 'n', 'c', 't', 'i', 'o', 'n'].isPrefixOf (r.dropWhile isWhiteChar)))
    || hasNewFunction rest

/-- The `dangerousPatterns` denylist, applied case-insensitively. -/
def dangerousExpr (s : List Char) : Bool :=
  let l := lowerStr s
  hasInfixStr (['e', 'v', 'a', 'l', '('] ) l
  || hasInfixStr (['f', 'u', 'n', 'c', 't', 'i', 'o', 'n', '(']) l
  || hasNewFunction l
  || hasInfixStr (['.', 'c', 'o', 'n', 's', 't', 'r', 'u', 'c', 't', 'o', 'r']) l
  || hasInfixStr (['_', '_', 'p', 'r', 'o', 't', 'o', '_', '_']) l
  || hasInfixStr (['p', 'r', 'o', 'c', 'e', 's', 's', '.']) l
  || hasInfixStr (['r', 'e', 'q', 'u', 'i', 'r', 'e', '(']) l
  || hasInfixStr (['i', 'm', 'p', 'o', 'r', 't', '(']) l

/-- The character class `/^[0-9+\-*\/%.()\s]+$/` of the validator. -/
def validChar (c : Char) : Bool :=
  isDigitChar c || decide (c = '+' ∨ c = '-' ∨ c = '*' ∨ c = '/' ∨ c = '%'
    ∨ c = '.' ∨ c = '(' ∨ c = ')') || isWhiteChar c

/-- The parenthesis-balance loop: running balance with an early break as
soon as it goes negative (the source `break`s and then finds `balance ≠ 0`). -/
def parenBalance : List Char → Int → Int
  | [], b => b
  | c :: rest, b =>
    let b' := b + (if c = '(' then 1 else 0) - (if c = ')' then 1 else 0)
    if b' < 0 then b' else parenBalance rest b'

/-- `CalculationEngine._validateExpression`.  The `typeof expression`
check is enforced by the type of the embedding; the remaining checks run
in source order: emptiness, denylist, character class, parentheses. -/
def validateExpression (s : List Char) : Except ErrKind Unit :=
  if s = [] then .error .invalidInput
  else if dangerousExpr s then .error .invalidInput
  else if ¬(s.all validChar) then .error .invalidInput
  else if parenBalance s 0 = 0 then .ok () else .error .syntaxError

/-! ## Tokenizer (`CalculationEngine._tokenizeExpression`) -/

/-- The tokenizer loop: `cur` is the pending `currentNumber` accumulator.
Digit/dot characters extend the run; any other character flushes the run
and, unless it is a space, becomes its own one-character token. -/
def tokenizeAux : List Char → List Char → List (List Char)
  | [], cur => if cur.isEmpty then [] else [cur]
  | c :: rest, cur =>
    if digitDot c then tokenizeAux rest (cur ++ [c])
    else
      (if cur.isEmpty then [] else [cur])
        ++ (if c = ' ' then [] else [[c]])
        ++ tokenizeAux rest []

/-- `CalculationEngine._tokenizeExpression`. -/
def tokenizeExpression (s : List Char) : List (List Char) := tokenizeAux s []

/-! ## Number parsing (`_isNumber`, `parseFloat`) -/

/-- A well-formed numeric token: only digits and dots, at most one dot,
and at least one digit (`"5."`, `".5"`, `"007"` are well-formed; `"."`,
`"1.2.3"` are not). -/
def validNumericStr (t : List Char) : Bool :=
  t.all digitDot && t.count '.' ≤ 1 && t.any isDigitChar

/-- Digit run to natural number. -/
def digitsToNat (l : List Char) : ℕ :=
  l.foldl (fun a c => a * 10 + (c.toNat - 48)) 0

/-- Decimal value of a well-formed numeric token: integer part plus
fractional part over a power of ten. -/
def parseDecimal (t : List Char) : ℚ :=
  let ip := t.takeWhile (fun c => ¬(c = '.'))
  let fr := (t.dropWhile (fun c => ¬(c = '.'))).drop 1
  mkRat (digitsToNat ip * 10 ^ fr.length + digitsToNat fr) (10 ^ fr.length)

/-- Trim surrounding whitespace. -/
def trimWhite (t : List Char) : List Char :=
  ((t.dropWhile isWhiteChar).reverse.dropWhile isWhiteChar).reverse

/-- JavaScript `Number(string)` coercion on the token shapes this engine
produces (digit/dot runs, single symbol characters, single whitespace
characters): whitespace-only coerces to `0`, a well-formed numeric string
to its value, anything else to `NaN`. -/
def jsStrToNumber (t : List Char) : JsNum :=
  let u := trimWhite t
  if u.isEmpty then some 0
  else if validNumericStr u then some (parseDecimal u)
  else none

/-- `CalculationEngine._isNumber`: `!isNaN(token) && isFinite(token)`. -/
def isNumberTok (t : List Char) : Bool := (jsStrToNumber t).isSome

/-- JavaScript `parseFloat` on the token shapes this engine feeds it
(tokens that passed `_isNumber`): parse the leading digit/dot run; with no
leading well-formed numeric run the result is `NaN`. -/
def jsParseFloat (t : List Char) : JsNum :=
  let u := t.dropWhile isWhiteChar
  let run := u.takeWhile digitDot
  if validNumericStr run then some (parseDecimal run) else none

/-! ## Shunting yard (`CalculationEngine._toReversePolishNotation`) -/

/-- An element of the source's heterogeneous `output` array: a pushed
`parseFloat` result or a raw token string popped from the operator stack. -/
inductive RTok where
  | num (v : JsNum)
  | str (t : List Char)
deriving DecidableEq

/-- The inner `while` of the operator case: pop operators of strictly
greater precedence to the output; stop at `'('`, a non-operator, or an
operator of lower-or-equal precedence.  Returns the remaining stack and
the popped output (in pop order). -/
def popHigher (p : ℕ) : List (List Char) → List (List Char) × List RTok
  | [] => ([], [])
  | top :: rest =>
    if top = ['('] || ¬(isOpTok top) then (top :: rest, [])
    else if p < tokPrec top then
      let (st, out) := popHigher p rest
      (st, RTok.str top :: out)
    else (top :: rest, [])

/-- The token loop of `_toReversePolishNotation`, carrying the operator
stack (head = top).  A token that is neither a number, an operator, nor a
parenthesis — e.g. a malformed numeric run such as `"1.2.3"` — matches no
branch and is silently dropped. -/
def syAux : List (List Char) → List (List Char) → List RTok
  | [], ops => ops.map RTok.str
  | t :: rest, ops =>
    if isNumberTok t then RTok.num (jsParseFloat t) :: syAux rest ops
    else if isOpTok t then
      let (ops', popped) := popHigher (tokPrec t) ops
      popped ++ syAux rest (t :: ops')
    else if t = ['('] then syAux rest (['('] :: ops)
    else if t = [')'] then
      (ops.takeWhile (fun x => ¬(x = ['(']))).map RTok.str
        ++ syAux rest ((ops.dropWhile (fun x => ¬(x = ['(']))).drop 1)
    else syAux rest ops

/-- `CalculationEngine._toReversePolishNotation`. -/
def toReversePolishNotation (s : List Char) : List RTok :=
  syAux (tokenizeExpression s) []

/-! ## RPN evaluation (`CalculationEngine._evaluateRPN`) -/

/-- One operator application of `_evaluateRPN` on the operand stack
(head = top): pop `b` then `a`; fewer than two operands is the
`SYNTAX_ERROR` "insufficient operands"; a non-finite (`NaN`) result is
the `SYNTAX_ERROR` "invalid numerical result" (the infinity/`OVERFLOW`
branch is unreachable over `ℚ`); otherwise push `a OP b`. -/
def evalRPNStep (t : List Char) (stack : List JsNum) : Except ErrKind (List JsNum) :=
  match stack with
  | b :: a :: rest =>
    match execNum t a b with
    | .error e => .error e
    | .ok none => .error .syntaxError
    | .ok (some q) => .ok (some q :: rest)
  | _ => .error .syntaxError

/-- The evaluation loop itself: numbers are pushed, operator strings are
applied via `evalRPNStep` (an error there aborts the loop), and other
strings are ignored as in the source. -/
def evalRPNAux : List RTok → List JsNum → Except ErrKind (List JsNum)
  | [], stack => .ok stack
  | RTok.num v :: rest, stack => evalRPNAux rest (v :: stack)
  | RTok.str t :: rest, stack =>
    if isOpTok t then
      match evalRPNStep t stack with
      | .error e => .error e
      | .ok stack1 => evalRPNAux rest stack1
    else evalRPNAux rest stack

/-- `Math.round`: round half toward positive infinity. -/
def jsRound (q : ℚ) : ℤ := (qAdd q (mkRat 1 2)).floor

/-- Absolute value, written out as the source's `Math.abs`. -/
def ratAbs (q : ℚ) : ℚ := if q.num < 0 then -q else q

/-! ## Number rendering (`Number.prototype.toString`) and `parseInt` -/

/-- Decimal digits of a natural number, most significant first (fuel-based
so that it reduces in the kernel; `n + 1` fuel always suffices). -/
def natDigitsAux : ℕ → ℕ → List Char
  | 0, _ => []
  | fuel + 1, n =>
    if n < 10 then [Char.ofNat (48 + n)]
    else natDigitsAux fuel (n / 10) ++ [Char.ofNat (48 + n % 10)]

/-- Decimal digits of a natural number, most significant first. -/
def natDigits (n : ℕ) : List Char := natDigitsAux (n + 1) n

/-- Strip trailing `'0'` characters. -/
def stripTrailingZeros (l : List Char) : List Char :=
  (l.reverse.dropWhile (fun c => c = '0')).reverse

/-- Plain (non-exponential) rendering, used for `0` and for
`1e-6 ≤ |x| < 1e21`: optional sign, integer digits, and the fraction
digits scaled by `10 ^ 10` with trailing zeros stripped, no decimal point
for whole values.  (Exact for values whose denominator divides `10 ^ 10`
— which `_roundResult` always produces; other fractions are truncated to
10 digits.) -/
def renderPlain (q : ℚ) : List Char :=
  let a := ratAbs q
  let ip : ℕ := a.floor.toNat
  let m : ℕ := ((qMul (qSub a (mkRat ip 1)) (mkRat (10 ^ 10) 1)).floor).toNat
  let digits := natDigits m
  let fr := stripTrailingZeros (List.replicate (10 - digits.length) '0' ++ digits)
  (if q.num < 0 then ['-'] else []) ++ natDigits ip
    ++ (if fr.isEmpty then [] else '.' :: fr)

/-- Exponential rendering for `|x| ≥ 1e21`: sign, one leading digit, the
remaining integer digits as the mantissa (trailing zeros stripped), and a
positive decimal exponent, e.g. `"9.999e+21"`.  Doubles of this magnitude
are whole, so only the integer digits contribute; the model keeps the
exact digits where JS prints the float's shortest round-trip digits. -/
def renderExpLarge (q : ℚ) : List Char :=
  let ds := natDigits (ratAbs q).floor.toNat
  let mant := stripTrailingZeros ds.tail
  (if q.num < 0 then ['-'] else []) ++ [ds.headD '0']
    ++ (if mant.isEmpty then [] else '.' :: mant)
    ++ 'e' :: '+' :: natDigits (ds.length - 1)

/-- Exponential rendering for nonzero `|x| < 1e-6`: the value is scaled
by `10 ^ 10` (exact for `_roundResult` outputs), giving one leading
digit, a mantissa with trailing zeros stripped, and a negative decimal
exponent, e.g. `"1e-7"`. -/
def renderExpSmall (q : ℚ) : List Char :=
  let ds := natDigits ((qMul (ratAbs q) (mkRat (10 ^ 10) 1)).floor).toNat
  let mant := stripTrailingZeros ds.tail
  (if q.num < 0 then ['-'] else []) ++ [ds.headD '0']
    ++ (if mant.isEmpty then [] else '.' :: mant)
    ++ 'e' :: '-' :: natDigits (11 - ds.length)

/-- JavaScript `Number.prototype.toString`: plain decimal notation for
`0` and for `1e-6 ≤ |x| < 1e21`, exponential notation for `|x| ≥ 1e21`
and for nonzero `|x| < 1e-6` (ECMA's `ToString` thresholds). -/
def ratToString (q : ℚ) : List Char :=
  if ratLt (ratAbs q) (mkRat (10 ^ 21) 1) = false then renderExpLarge q
  else if (decide (¬(q.num = 0)) && ratLt (ratAbs q) (mkRat 1 (10 ^ 6))) = true then
    renderExpSmall q
  else renderPlain q

/-- JavaScript `parseInt` applied to a number: the argument is rendered
with `toString` and the leading optional sign plus digit run is parsed,
stopping at the first other character — so whole values below `1e21`
round-trip, while an exponential rendering is truncated at its mantissa's
first digit (`parseInt(1e21) = 1`). -/
def jsParseIntNum (q : ℚ) : ℚ :=
  if (ratToString q).headD ' ' = '-' then
    mkRat (-(digitsToNat (((ratToString q).drop 1).takeWhile isDigitChar) : ℤ)) 1
  else mkRat (digitsToNat ((ratToString q).takeWhile isDigitChar)) 1

/-- `CalculationEngine._roundResult`: magnitudes below `1e-10` collapse
to `0`; otherwise the value is rounded (half up) to 10 decimal places,
and a whole rounded value (`rounded % 1 === 0`, modelled as denominator
1) is passed through `parseInt(rounded)` — the identity below `1e21`, but
a truncation of the exponential rendering at its first digit for whole
values of magnitude at least `1e21`. -/
def roundResult (q : ℚ) : ℚ :=
  if ratLt (ratAbs q) (mkRat 1 (10 ^ 10)) then 0
  else if (mkRat (jsRound (qMul q (mkRat (10 ^ 10) 1))) (10 ^ 10)).den = 1 then
    jsParseIntNum (mkRat (jsRound (qMul q (mkRat (10 ^ 10) 1))) (10 ^ 10))
  else mkRat (jsRound (qMul q (mkRat (10 ^ 10) 1))) (10 ^ 10)

/-- `_roundResult` lifted to JavaScript numbers: `NaN` stays `NaN`. -/
def jsRoundNum (v : JsNum) : JsNum := v.map roundResult

/-- The final-stack phase of `_evaluateRPN` without the rounding step:
exactly one value must remain. -/
def evaluateRPNRaw (rpn : List RTok) : Except ErrKind JsNum :=
  match evalRPNAux rpn [] with
  | .error e => .error e
  | .ok [v] => .ok v
  | .ok _ => .error .syntaxError

/-- `CalculationEngine._evaluateRPN`: the raw stack result, rounded. -/
def evaluateRPN (rpn : List RTok) : Except ErrKind JsNum :=
  (evaluateRPNRaw rpn).map jsRoundNum

/-- `CalculationEngine.calculate`: validate, convert to RPN, evaluate.
Every raised error is already a `CalculatorError`, so the re-wrapping
`catch` of the source is the identity here. -/
def CalculationEngine.calculate (s : List Char) : Except ErrKind JsNum :=
  match validateExpression s with
  | .error e => .error e
  | .ok _ => evaluateRPN (toReversePolishNotation s)

/-- The spec's name for the engine façade (`ExpressionEngine.evaluate`). -/
def ExpressionEngine.evaluate (s : List Char) : Except ErrKind JsNum :=
  CalculationEngine.calculate s

/-! ## Rendering a JavaScript number -/

/-- `toString` on a JavaScript number: `NaN` renders as `"NaN"`. -/
def jsNumToString (v : JsNum) : List Char :=
  match v with
  | none => ['N', 'a', 'N']
  | some q => ratToString q

/-! ## The interaction state machine (`CalculatorState`) -/

/-- One history record `{expression, result, timestamp}`; the ISO
timestamp string is abstracted to a monotone `Nat` clock value. -/
structure HistoryEntry where
  expression : List Char
  result : JsNum
  timestamp : ℕ
deriving DecidableEq

/-- The fields of the `CalculatorState` class.  `clock` models the wall
clock read by `new Date()`: it is not a source field, only a device for
giving successive history entries increasing timestamps. -/
structure CalculatorState where
  currentInput : List Char
  previousInput : List Char
  operator : Option Char
  shouldResetDisplay : Bool
  history : List HistoryEntry
  lastCalculation : Option (List Char × JsNum)
  clock : ℕ
deriving DecidableEq

/-- The state built by `reset()` (and by the constructor), at clock 0. -/
def CalculatorState.initial : CalculatorState :=
  { currentInput := defaultDisplay, previousInput := [], operator := none,
    shouldResetDisplay := false, history := [], lastCalculation := none, clock := 0 }

/-- `CalculatorState.updateInput`: decimal points append unless one is
present; digits replace a default/pending display, else append only below
`MAX_DISPLAY_LENGTH`. -/
def CalculatorState.updateInput (v : List Char) (st : CalculatorState) : CalculatorState :=
  if v = ['.'] then
    if '.' ∈ st.currentInput then st
    else { st with currentInput := st.currentInput ++ ['.'] }
  else if st.currentInput = defaultDisplay ∨ st.shouldResetDisplay = true then
    { st with currentInput := v, shouldResetDisplay := false }
  else if st.currentInput.length < 16 then
    { st with currentInput := st.currentInput ++ v }
  else st

/-- `CalculatorState.calculate`: with a pending operator and a non-empty
`previousInput`, evaluate `previousInput + operator + currentInput`.
Success records history (bounded to 10, oldest shifted out) and shows the
result; failure shows the `"Error"` sentinel and re-raises the error (the
second component).  Otherwise a no-op. -/
def CalculatorState.calculate (st : CalculatorState) : CalculatorState × Option ErrKind :=
  match st.operator with
  | none => (st, none)
  | some op =>
    if st.previousInput = [] then (st, none)
    else
      let expr := st.previousInput ++ op :: st.currentInput
      match CalculationEngine.calculate expr with
      | .ok r =>
        let h1 := st.history ++ [⟨expr, r, st.clock⟩]
        ({ st with
            currentInput := jsNumToString r, previousInput := [], operator := none,
            shouldResetDisplay := true,
            history := if 10 < h1.length then h1.tail else h1,
            lastCalculation := some (expr, r), clock := st.clock + 1 }, none)
      | .error e =>
        ({ st with
            currentInput := errorMessage, previousInput := [], operator := none,
            shouldResetDisplay := true }, some e)

/-- `CalculatorState.applyOperator`: with a pending operator and a typed
right operand, first resolve it via `calculate()`; an error there
propagates before the new operator is stored (the remaining assignments
of the source do not run).  Otherwise store the operand and operator and
mark the display for reset. -/
def CalculatorState.applyOperator (op : Char) (st : CalculatorState) :
    CalculatorState × Option ErrKind :=
  if st.operator.isSome = true ∧ st.shouldResetDisplay = false then
    match st.calculate with
    | (st1, some e) => (st1, some e)
    | (st1, none) =>
      ({ st1 with
          previousInput := st1.currentInput, operator := some op,
          shouldResetDisplay := true }, none)
  else
    ({ st with
        previousInput := st.currentInput, operator := some op,
        shouldResetDisplay := true }, none)

/-- `CalculatorState.backspace`: drop the last character, or reset a
one-character display to the default `"0"`. -/
def CalculatorState.backspace (st : CalculatorState) : CalculatorState :=
  if 1 < st.currentInput.length then { st with currentInput := st.currentInput.dropLast }
  else { st with currentInput := defaultDisplay }

/-- `CalculatorState.clear` = `reset()`: reinitialize every field
(including wiping history); the model's clock is ambient time and keeps
running. -/
def CalculatorState.clear (st : CalculatorState) : CalculatorState :=
  { currentInput := defaultDisplay, previousInput := [], operator := none,
    shouldResetDisplay := false, history := [], lastCalculation := none, clock := st.clock }

/-- `CalculatorState.getDisplayValue`. -/
def CalculatorState.getDisplayValue (st : CalculatorState) : List Char := st.currentInput

/-- `CalculatorState.getHistory` (the source returns a fresh copy of the
same entries). -/
def CalculatorState.getHistory (st : CalculatorState) : List HistoryEntry := st.history

/-! ## Driving the state machine -/

/-- One external input event delivered to the state machine. -/
inductive CalcAction where
  | input (v : List Char)
  | oper (c : Char)
  | equals
  | back
  | clearAll
deriving DecidableEq

/-- The effect of one event on the state; errors raised by `calculate`
propagate to the UI layer and leave the already-mutated state in place. -/
def CalcAction.step (a : CalcAction) (st : CalculatorState) : CalculatorState :=
  match a with
  | .input v => st.updateInput v
  | .oper c => (st.applyOperator c).1
  | .equals => st.calculate.1
  | .back => st.backspace
  | .clearAll => st.clear

/-- The key values the UI ever passes to `updateInput`: the ten digits
and the decimal point. -/
def digitKeys : List (List Char) :=
  [['0'], ['1'], ['2'], ['3'], ['4'], ['5'], ['6'], ['7'], ['8'], ['9'], ['.']]

/-- An event carrying an argument in the domain the UI uses: digit or
decimal keys for `updateInput`, the five operator symbols for
`applyOperator`. -/
def CalcAction.valid : CalcAction → Bool
  | .input v => decide (v ∈ digitKeys)
  | .oper c => decide (c ∈ opChars)
  | .equals => true
  | .back => true
  | .clearAll => true

/-- Run a sequence of events from the freshly constructed state. -/
def runCalc (acts : List CalcAction) : CalculatorState :=
  acts.foldl (fun st a => a.step st) CalculatorState.initial

/-! ## Ghost log of successful calculations (for the history claims) -/

/-- The history entry a `calculate()` call would record right now, if
any: defined iff an operator is pending, `previousInput` is non-empty and
the engine succeeds. -/
def calcEntry (st : CalculatorState) : Option HistoryEntry :=
  match st.operator with
  | none => none
  | some op =>
    if st.previousInput = [] then none
    else
      match CalculationEngine.calculate (st.previousInput ++ op :: st.currentInput) with
      | .ok r => some ⟨st.previousInput ++ op :: st.currentInput, r, st.clock⟩
      | .error _ => none

/-- The entries one event appends to the history (at most one; `oper`
runs an inner `calculate` only under the chaining condition). -/
def actLog (a : CalcAction) (st : CalculatorState) : List HistoryEntry :=
  match a with
  | .equals => (calcEntry st).toList
  | .oper _ =>
    if st.operator.isSome = true ∧ st.shouldResetDisplay = false then (calcEntry st).toList
    else []
  | _ => []

/-- Run a sequence of events carrying the full log of successful
calculations since the last `clear()` alongside the state. -/
def runCalcLog (acts : List CalcAction) : CalculatorState × List HistoryEntry :=
  acts.foldl
    (fun p a =>
      (a.step p.1, match a with | .clearAll => [] | _ => p.2 ++ actLog a p.1))
    (CalculatorState.initial, [])

/-- The last `n` elements of a list. -/
def lastN (n : ℕ) (l : List α) : List α := l.drop (l.length - n)

/-! ## Shape predicates for the display invariant -/

/-- The characters a JavaScript number rendering can contain: digits,
the decimal point, the sign, and the exponent marker with its sign. -/
def jsNumChar (c : Char) : Bool :=
  isDigitChar c || decide (c = '.' ∨ c = '-' ∨ c = 'e' ∨ c = '+')

/-- Characters from the number alphabet with at most one decimal point. -/
def numBody (b : List Char) : Bool := b.all jsNumChar && b.count '.' ≤ 1

/-- The number-shaped display strings: non-empty, over the JS number
alphabet, with at most one decimal point.  This covers plain and
exponential renderings and everything backspace truncation and
decimal-point appending make of them (including degenerate residues such
as `"-"` or `"1e-"`). -/
def numShaped : List Char → Bool
  | [] => false
  | c :: rest => numBody (c :: rest)

/-- The error-shaped display strings actually reachable: a non-empty
prefix of `"Error"` (backspace truncates the sentinel), optionally
followed by `'.'` (`updateInput('.')` appends to any dot-free display). -/
def errForms : List (List Char) :=
  [['E'], ['E', 'r'], ['E', 'r', 'r'], ['E', 'r', 'r', 'o'], ['E', 'r', 'r', 'o', 'r'],
   ['E', '.'], ['E', 'r', '.'], ['E', 'r', 'r', '.'], ['E', 'r', 'r', 'o', '.'],
   ['E', 'r', 'r', 'o', 'r', '.']]

/-- Membership in `errForms`. -/
def errLike (s : List Char) : Bool := decide (s ∈ errForms)

/-- Modelled from the spec: "a valid numeric literal" of the display
contract — an optional sign, a mantissa of digits with at most one
decimal point and at least one digit, and an optional exponent part
(`e`/`E`, optional sign, at least one digit). -/
def specNumericLiteral (s : List Char) : Bool :=
  let u := match s with | '-' :: r => r | _ => s
  let m := u.takeWhile (fun c => ¬(c = 'e' ∨ c = 'E'))
  let rest := u.dropWhile (fun c => ¬(c = 'e' ∨ c = 'E'))
  (m.all digitDot && m.count '.' ≤ 1 && m.any isDigitChar)
    && (rest.isEmpty
      || (let e1 := rest.drop 1
          let e2 := match e1 with | '+' :: r => r | '-' :: r => r | _ => e1
          ¬(e2.isEmpty) && e2.all isDigitChar))

/-- Modelled from the spec: the display contract — a valid numeric
literal, the default `"0"`, or the sentinel `"Error"`. -/
def specDisplayContract (s : List Char) : Bool :=
  specNumericLiteral s || decide (s = defaultDisplay) || decide (s = errorMessage)

/-- The inductive invariant of the state machine: the display is number-
or error-shaped, a display not awaiting reset is number-shaped, the
stored left operand (when present) has a display shape, and the pending
operator is one of the five symbols. -/
def StateInv (st : CalculatorState) : Prop :=
  (numShaped st.currentInput = true ∨ errLike st.currentInput = true)
  ∧ (st.shouldResetDisplay = false → numShaped st.currentInput = true)
  ∧ (st.previousInput = [] ∨ numShaped st.previousInput = true
      ∨ errLike st.previousInput = true)
  ∧ (∀ c, st.operator = some c → c ∈ opChars)

/-- Token shapes produced by tokenizing a whitespace-free string: a
non-empty digit/dot run, or a single character that is neither digit/dot
nor whitespace. -/
def GoodTok (t : List Char) : Prop :=
  (t ≠ [] ∧ ∀ c ∈ t, digitDot c = true) ∨
    (∃ c, t = [c] ∧ digitDot c = false ∧ isWhiteChar c = false)

/-- Timestamps strictly increase along the list. -/
def chronological (l : List HistoryEntry) : Prop :=
  List.Pairwise (fun e1 e2 => e1.timestamp < e2.timestamp) l

/-- The invariant tying a state to the ghost log of successful
calculations since the last clear: the history is the last ten log
entries, the log is chronological, and all its stamps are in the past. -/
def HistoryInv (st : CalculatorState) (log : List HistoryEntry) : Prop :=
  st.history = lastN 10 log ∧ chronological log ∧ ∀ e ∈ log, e.timestamp < st.clock

/-! # Theorems

## Bridge lemmas: the kernel-computable arithmetic agrees with Mathlib's -/

theorem qAdd_eq (a b : ℚ) : qAdd a b = a + b := (Rat.add_def' a b).symm

theorem qSub_eq (a b : ℚ) : qSub a b = a - b := (Rat.sub_def' a b).symm

theorem qMul_eq (a b : ℚ) : qMul a b = a * b := by
  rw [qMul, Rat.mul_def, Rat.normalize_eq_mkRat]

theorem qDiv_eq (a b : ℚ) : qDiv a b = a / b := by
  by_cases hb : b.num = 0
  · have hb0 : b = 0 := Rat.num_eq_zero.mp hb
    subst hb0
    simp [qDiv]
  · rw [Rat.div_def, Rat.inv_def, qDiv]
    conv_rhs => rw [← Rat.divInt_self a]
    rw [Rat.divInt_mul_divInt _ _ (by exact_mod_cast a.den_nz) hb]

theorem ratLt_iff (a b : ℚ) : ratLt a b = true ↔ a < b := by
  rw [ratLt, decide_eq_true_iff, Rat.lt_def]

theorem ratAbs_eq (q : ℚ) : ratAbs q = |q| := by
  rw [ratAbs]
  by_cases h : q.num < 0
  · rw [if_pos h, abs_of_neg (Rat.num_neg.mp h)]
  · rw [if_neg h, abs_of_nonneg (Rat.num_nonneg.mp (not_lt.mp h))]

/-! ## C1: strict-`>` shunting yard makes `"1-2-3"` evaluate to `2` -/

/-- C1: `evaluate("1-2-3")` returns `2`, not `-4`: the strict-`>` pop
condition leaves both `'-'` operators on the stack, so the RPN output is
`1 2 3 - -`, which associates as `1-(2-3)`. -/
theorem c1_one_minus_two_minus_three :
    ExpressionEngine.evaluate (("1-2-3").toList) = .ok (some 2)
      ∧ toReversePolishNotation (("1-2-3").toList) =
        [RTok.num (some 1), RTok.num (some 2), RTok.num (some 3),
         RTok.str ['-'], RTok.str ['-']]
      ∧ ¬ExpressionEngine.evaluate (("1-2-3").toList) = .ok (some (-4)) := by
  refine ⟨by decide, by decide, by decide⟩

/-! ## C4: malformed numeric tokens -/

/-- C4 counterexample: `"1.2.3 1 2+"` passes validation and contains the
malformed numeric token `"1.2.3"`, yet `evaluate` does not fail with
`SyntaxError` — the token is silently dropped and the remaining RPN
evaluates to `3`. -/
theorem c4_counterexample :
    validateExpression (("1.2.3 1 2+").toList) = .ok ()
      ∧ ("1.2.3").toList ∈ tokenizeExpression (("1.2.3 1 2+").toList)
      ∧ validNumericStr (("1.2.3").toList) = false
      ∧ ExpressionEngine.evaluate (("1.2.3 1 2+").toList) = .ok (some 3)
      ∧ ¬ExpressionEngine.evaluate (("1.2.3 1 2+").toList) = .error .syntaxError := by
  refine ⟨by decide, by decide, by decide, by decide, by decide⟩

/-- C4 amended: a malformed numeric token is silently dropped from the
shunting-yard output (it fails `_isNumber` and matches no other branch).
Inputs consisting of the malformed token alone, or of the token plus a
normal operator application, do fail with `SyntaxError` — but only
through the downstream stack-shape checks, and crafted inputs such as
`"1.2.3 1 2+"` succeed instead. -/
theorem c4_malformed_token_dropped :
    ExpressionEngine.evaluate (("1.2.3").toList) = .error .syntaxError
      ∧ ExpressionEngine.evaluate (("1.2.3+4").toList) = .error .syntaxError
      ∧ toReversePolishNotation (("1.2.3 1 2+").toList) =
        [RTok.num (some 1), RTok.num (some 2), RTok.str ['+']] := by
  refine ⟨by decide, by decide, by decide⟩

/-! ## C5: chained immediate evaluation through the state machine -/

/-- C5: `"7", +, "3", =` displays `"10"`, and continuing with
`-, "4", =` without clearing displays `"6"`. -/
theorem c5_chained_evaluation :
    (runCalc [.input ['7'], .oper '+', .input ['3'], .equals]).getDisplayValue
        = ['1', '0']
      ∧ (runCalc [.input ['7'], .oper '+', .input ['3'], .equals,
          .oper '-', .input ['4'], .equals]).getDisplayValue = ['6'] := by
  refine ⟨by decide, by decide⟩

/-! ## C10: `calculate()` without a pending operation is a no-op -/

/-- C10: when no operator is pending or `previousInput` is empty,
`calculate()` returns immediately: the state is unchanged in every field
and no error is raised. -/
theorem c10_calculate_noop (st : CalculatorState)
    (h : st.operator = none ∨ st.previousInput = []) :
    st.calculate = (st, none) := by
  cases hop : st.operator with
  | none => simp [CalculatorState.calculate, hop]
  | some op =>
    rcases h with h | h
    · rw [hop] at h; cases h
    · simp [CalculatorState.calculate, hop, h]

/-- Witness for C10 at the initial state. -/
theorem c10_calculate_noop_witness :
    CalculatorState.initial.calculate = (CalculatorState.initial, none) :=
  c10_calculate_noop CalculatorState.initial (Or.inl rfl)

/-! ## C6: division and modulo by zero -/

/-- C6: `DivisionOperation`/`ModuloOperation` fail with `DivisionByZero`
exactly when the right operand is `0`; for nonzero right operands they
succeed; `evaluate("1/0")` and `evaluate("1%0")` fail with
`DivisionByZero`. -/
theorem c6_division_modulo_by_zero (a b : ℚ) :
    DivisionOperation.execute a 0 = .error .divisionByZero
      ∧ ModuloOperation.execute a 0 = .error .divisionByZero
      ∧ (b ≠ 0 →
          (∃ q, DivisionOperation.execute a b = .ok q)
            ∧ ∃ q, ModuloOperation.execute a b = .ok q)
      ∧ ExpressionEngine.evaluate (("1/0").toList) = .error .divisionByZero
      ∧ ExpressionEngine.evaluate (("1%0").toList) = .error .divisionByZero := by
  refine ⟨?_, ?_, ?_, by decide, by decide⟩
  · rw [DivisionOperation.execute, if_pos rfl]
  · rw [ModuloOperation.execute, if_pos rfl]
  · intro hb
    exact ⟨⟨_, by rw [DivisionOperation.execute, if_neg hb]⟩,
      ⟨_, by rw [ModuloOperation.execute, if_neg hb]⟩⟩

/-- Witness for C6 at `a = 1`, `b = 2`. -/
theorem c6_division_modulo_by_zero_witness :
    DivisionOperation.execute 1 0 = .error .divisionByZero
      ∧ (∃ q, DivisionOperation.execute 1 2 = .ok q)
      ∧ ∃ q, ModuloOperation.execute 1 2 = .ok q := by
  have h := c6_division_modulo_by_zero 1 2
  exact ⟨h.1, (h.2.2.1 (by decide)).1, (h.2.2.1 (by decide)).2⟩

/-! ## C7: validation failures -/

/-- C7: validation fails with `InvalidInput` on empty input, characters
outside the class, or a denylisted pattern; with the earlier checks
passed, unbalanced parentheses fail with `SyntaxError`; and every
validation failure short-circuits `evaluate` (no partial result). -/
theorem c7_validation (s : List Char) :
    (s = [] → ExpressionEngine.evaluate s = .error .invalidInput)
      ∧ (¬(s.all validChar = true) → ExpressionEngine.evaluate s = .error .invalidInput)
      ∧ (dangerousExpr s = true → ExpressionEngine.evaluate s = .error .invalidInput)
      ∧ (s ≠ [] → dangerousExpr s = false → s.all validChar = true →
          ¬(parenBalance s 0 = 0) → ExpressionEngine.evaluate s = .error .syntaxError)
      ∧ (∀ e, validateExpression s = .error e → ExpressionEngine.evaluate s = .error e)
      ∧ ExpressionEngine.evaluate (("eval(1)").toList) = .error .invalidInput
      ∧ ExpressionEngine.evaluate (("(1+2").toList) = .error .syntaxError := by
  have hstep : ∀ e, validateExpression s = .error e →
      ExpressionEngine.evaluate s = .error e := by
    intro e he
    rw [ExpressionEngine.evaluate, CalculationEngine.calculate, he]
  refine ⟨?_, ?_, ?_, ?_, hstep, by decide, by decide⟩
  · rintro rfl
    decide
  · intro hbad
    rcases hs : s with _ | ⟨c, rest⟩
    · rw [hs] at hbad
      exact absurd (by decide) hbad
    · rw [← hs]
      have hne : ¬(s = []) := by rw [hs]; exact List.cons_ne_nil c rest
      refine hstep _ ?_
      rw [validateExpression, if_neg hne]
      by_cases hd : dangerousExpr s = true
      · rw [if_pos hd]
      · rw [if_neg hd, if_pos hbad]
  · intro hd
    rcases hs : s with _ | ⟨c, rest⟩
    · rw [hs] at hd
      exact absurd hd (by decide)
    · rw [← hs]
      have hne : ¬(s = []) := by rw [hs]; exact List.cons_ne_nil c rest
      refine hstep _ ?_
      rw [validateExpression, if_neg hne, if_pos hd]
  · intro hne hd hall hbal
    refine hstep _ ?_
    rw [validateExpression, if_neg hne, if_neg (by rw [hd]; exact Bool.false_ne_true),
      if_neg (by rw [hall]; exact not_not_intro rfl), if_neg hbal]

/-- Witness for C7: the invalid-character clause at `"1a"` and the
parenthesis clause at `"(1+2"`. -/
theorem c7_validation_witness :
    ExpressionEngine.evaluate (("1a").toList) = .error .invalidInput
      ∧ ExpressionEngine.evaluate (("(1+2").toList) = .error .syntaxError := by
  refine ⟨(c7_validation (("1a").toList)).2.1 (by decide),
    (c7_validation (("(1+2").toList)).2.2.2.1 (by decide) (by decide) (by decide) (by decide)⟩

/-! ## Digits round-trip, whole-value rendering, and `parseInt` -/

theorem mkRat_eq_div (n : ℤ) (d : ℕ) : mkRat n d = (n : ℚ) / (d : ℚ) := by
  rw [Rat.mkRat_eq_divInt, Rat.divInt_eq_div]
  norm_cast

theorem ratFloor_eq (q : ℚ) : q.floor = ⌊q⌋ := by
  rw [Rat.floor_def', Rat.floor_def]

theorem takeWhile_of_all {p : Char → Bool} {t : List Char} (h : ∀ c ∈ t, p c = true) :
    t.takeWhile p = t := by
  induction t with
  | nil => rfl
  | cons c rest ih =>
    rw [List.takeWhile_cons, h c (List.mem_cons_self c rest)]
    rw [ih fun x hx => h x (List.mem_cons_of_mem c hx)]
    simp

theorem natDigitsAux_spec :
    ∀ (fuel n : ℕ), n < fuel →
      natDigitsAux fuel n ≠ [] ∧ ∀ c ∈ natDigitsAux fuel n, isDigitChar c = true := by
  intro fuel
  induction fuel with
  | zero => intro n hn; omega
  | succ fuel ih =>
    intro n hn
    rw [natDigitsAux]
    by_cases h10 : n < 10
    · rw [if_pos h10]
      refine ⟨by simp, ?_⟩
      intro c hc
      rcases List.mem_singleton.mp hc with rfl
      interval_cases n <;> decide
    · rw [if_neg h10]
      have hrec : n / 10 < fuel := by
        have h1 : n / 10 < n := Nat.div_lt_self (by omega) (by omega)
        omega
      refine ⟨?_, ?_⟩
      · intro hcontra
        rcases List.append_eq_nil.mp hcontra with ⟨h1, _⟩
        exact (ih (n / 10) hrec).1 h1
      · intro c hc
        rcases List.mem_append.mp hc with hc | hc
        · exact (ih (n / 10) hrec).2 c hc
        · rcases List.mem_singleton.mp hc with rfl
          have hm : n % 10 < 10 := Nat.mod_lt n (by omega)
          interval_cases hh : n % 10 <;> decide

theorem natDigits_ne_nil (n : ℕ) : natDigits n ≠ [] :=
  (natDigitsAux_spec (n + 1) n (Nat.lt_succ_self n)).1

theorem natDigits_all_digit (n : ℕ) : ∀ c ∈ natDigits n, isDigitChar c = true :=
  (natDigitsAux_spec (n + 1) n (Nat.lt_succ_self n)).2

theorem natDigitsAux_foldl :
    ∀ (fuel n : ℕ), n < fuel → ∀ a : ℕ,
      List.foldl (fun a c => a * 10 + (c.toNat - 48)) a (natDigitsAux fuel n)
        = a * 10 ^ (natDigitsAux fuel n).length + n := by
  intro fuel
  induction fuel with
  | zero => intro n hn; omega
  | succ fuel ih =>
    intro n hn a
    rw [natDigitsAux]
    by_cases h10 : n < 10
    · rw [if_pos h10]
      simp only [List.foldl_cons, List.foldl_nil, List.length_cons, List.length_nil]
      have hc : (Char.ofNat (48 + n)).toNat = 48 + n := by
        interval_cases n <;> decide
      rw [hc]
      simp only [pow_succ, pow_zero, one_mul]
      omega
    · rw [if_neg h10]
      rw [List.foldl_append]
      have hrec : n / 10 < fuel := by
        have h1 : n / 10 < n := Nat.div_lt_self (by omega) (by omega)
        omega
      rw [ih (n / 10) hrec a]
      simp only [List.foldl_cons, List.foldl_nil, List.length_append, List.length_cons,
        List.length_nil]
      have hc : (Char.ofNat (48 + n % 10)).toNat = 48 + n % 10 := by
        have hm : n % 10 < 10 := Nat.mod_lt n (by omega)
        interval_cases hh : n % 10 <;> decide
      rw [hc]
      have hL : 48 + n % 10 - 48 = n % 10 := by omega
      rw [hL]
      generalize (natDigitsAux fuel (n / 10)).length = L
      have hpow : (10 : ℕ) ^ (L + (0 + 1)) = 10 ^ L * 10 := by
        rw [pow_add, pow_succ, pow_zero, one_mul]
      rw [hpow]
      have hdm : 10 * (n / 10) + n % 10 = n := Nat.div_add_mod n 10
      calc (a * 10 ^ L + n / 10) * 10 + n % 10
          = a * (10 ^ L * 10) + (10 * (n / 10) + n % 10) := by ring
        _ = a * (10 ^ L * 10) + n := by rw [hdm]

theorem natDigits_toNat (n : ℕ) : digitsToNat (natDigits n) = n := by
  rw [digitsToNat, natDigits, natDigitsAux_foldl (n + 1) n (Nat.lt_succ_self n) 0]
  rw [zero_mul, zero_add]

theorem denOne_cast {q : ℚ} (hden : q.den = 1) : (q.num : ℚ) = q := by
  have h := Rat.num_div_den q
  rw [hden] at h
  simpa using h

theorem ratAbs_whole {q : ℚ} (hden : q.den = 1) : ratAbs q = (q.num.natAbs : ℚ) := by
  rw [ratAbs_eq, Int.cast_natAbs, Int.cast_abs]
  exact congrArg abs (denOne_cast hden).symm

theorem renderPlain_whole {q : ℚ} (hden : q.den = 1) :
    renderPlain q = (if q.num < 0 then ['-'] else []) ++ natDigits q.num.natAbs := by
  have hfl : (ratAbs q).floor = (q.num.natAbs : ℤ) := by
    rw [ratFloor_eq, ratAbs_whole hden]
    exact Int.floor_natCast _
  have htn : (ratAbs q).floor.toNat = q.num.natAbs := by
    rw [hfl]
    omega
  simp only [renderPlain]
  rw [htn]
  have hsub : qSub (ratAbs q) (mkRat (q.num.natAbs : ℤ) 1) = 0 := by
    rw [qSub_eq, Rat.mkRat_one, ratAbs_whole hden, Int.cast_natCast, sub_self]
  rw [hsub]
  have hmul : qMul 0 (mkRat (10 ^ 10) 1) = 0 := by
    rw [qMul_eq]
    exact zero_mul _
  rw [hmul]
  have hfz : (0 : ℚ).floor = 0 := by
    rw [ratFloor_eq]
    exact Int.floor_zero
  rw [hfz]
  have hfr : (if (stripTrailingZeros
        (List.replicate (10 - (natDigits ((0 : ℤ)).toNat).length) '0'
          ++ natDigits ((0 : ℤ)).toNat)).isEmpty then ([] : List Char)
      else '.' :: stripTrailingZeros
        (List.replicate (10 - (natDigits ((0 : ℤ)).toNat).length) '0'
          ++ natDigits ((0 : ℤ)).toNat)) = ([] : List Char) := by decide
  rw [hfr, List.append_nil]

theorem jsParseIntNum_int (q : ℚ) : ∃ n : ℤ, jsParseIntNum q = (n : ℚ) := by
  rw [jsParseIntNum]
  by_cases h : (ratToString q).headD ' ' = '-'
  · rw [if_pos h]
    exact ⟨_, Rat.mkRat_one _⟩
  · rw [if_neg h]
    exact ⟨_, Rat.mkRat_one _⟩

theorem jsParseIntNum_whole {q : ℚ} (hden : q.den = 1)
    (hlt : ratLt (ratAbs q) (mkRat (10 ^ 21) 1) = true) :
    jsParseIntNum q = q := by
  by_cases hz : q.num = 0
  · have hq0 : q = 0 := by
      have h := denOne_cast hden
      rw [hz] at h
      simpa using h.symm
    rw [hq0]
    decide
  · have h6 : ratLt (ratAbs q) (mkRat 1 (10 ^ 6)) = false := by
      cases hb : ratLt (ratAbs q) (mkRat 1 (10 ^ 6)) with
      | false => rfl
      | true =>
        exfalso
        have hlt6 := (ratLt_iff _ _).mp hb
        have hle : (mkRat 1 (10 ^ 6) : ℚ) ≤ 1 := by
          rw [mkRat_eq_div]
          norm_num
        have hge : (1 : ℚ) ≤ ratAbs q := by
          rw [ratAbs_whole hden]
          have h1 : 1 ≤ q.num.natAbs := by omega
          exact_mod_cast h1
        linarith [lt_of_lt_of_le hlt6 hle]
    have hc1 : ¬(ratLt (ratAbs q) (mkRat (10 ^ 21) 1) = false) := by
      rw [hlt]
      decide
    have hc2 : ¬((decide (¬(q.num = 0)) && ratLt (ratAbs q) (mkRat 1 (10 ^ 6))) = true) := by
      rw [h6, Bool.and_false]
      decide
    have hstr : ratToString q = renderPlain q := by
      rw [ratToString, if_neg hc1, if_neg hc2]
    rw [jsParseIntNum, hstr, renderPlain_whole hden]
    by_cases hneg : q.num < 0
    · rw [if_pos hneg]
      rw [List.singleton_append, List.headD_cons, if_pos rfl, List.drop_one,
        List.tail_cons, takeWhile_of_all (natDigits_all_digit q.num.natAbs),
        natDigits_toNat, Rat.mkRat_one]
      have hcast : (-(q.num.natAbs : ℤ)) = q.num := by omega
      rw [hcast, denOne_cast hden]
    · rw [if_neg hneg, List.nil_append]
      rcases hd : natDigits q.num.natAbs with _ | ⟨c, cs⟩
      · exact absurd hd (natDigits_ne_nil q.num.natAbs)
      · have hall : ∀ x ∈ c :: cs, isDigitChar x = true := by
          rw [← hd]
          exact natDigits_all_digit q.num.natAbs
        have hcm : ¬(c = '-') := by
          rintro rfl
          exact absurd (hall '-' (List.mem_cons_self _ _)) (by decide)
        have hdn : digitsToNat (c :: cs) = q.num.natAbs := by
          rw [← hd]
          exact natDigits_toNat q.num.natAbs
        rw [List.headD_cons, if_neg hcm, takeWhile_of_all hall, hdn, Rat.mkRat_one]
        have hcast : ((q.num.natAbs : ℤ)) = q.num := by omega
        rw [hcast, denOne_cast hden]

theorem rounded_eq_floor_form (q : ℚ) :
    (mkRat (jsRound (qMul q (mkRat (10 ^ 10) 1))) (10 ^ 10) : ℚ)
      = (⌊q * 10 ^ 10 + 1 / 2⌋ : ℚ) / 10 ^ 10 := by
  rw [mkRat_eq_div]
  have harg : qMul q (mkRat (10 ^ 10) 1) = q * 10 ^ 10 := by
    rw [qMul_eq, Rat.mkRat_one]
    norm_num
  rw [jsRound, harg, qAdd_eq, ratFloor_eq]
  have h12 : (mkRat 1 2 : ℚ) = 1 / 2 := by
    rw [mkRat_eq_div]
    norm_num
  rw [h12]
  norm_num

/-! ## C8: result rounding -/

/-- C8 counterexample: `99999999999 * 99999999999` evaluates raw to the
whole value `9999999999800000000001 ≥ 1e21`, whose rounding to 10 decimal
places is itself — but its `toString` is exponential
(`"9.999999999800000000001e+21"`), so the `parseInt(rounded)` branch of
`_roundResult` truncates it at the first non-digit and the evaluation
returns `9`, not the raw value the claimed half-up rounding would give. -/
theorem c8_counterexample :
    ExpressionEngine.evaluate (("99999999999*99999999999").toList) = .ok (some 9)
      ∧ evaluateRPNRaw (toReversePolishNotation (("99999999999*99999999999").toList))
          = .ok (some 9999999999800000000001)
      ∧ roundResult 9999999999800000000001 = 9
      ∧ mkRat (jsRound (qMul 9999999999800000000001 (mkRat (10 ^ 10) 1))) (10 ^ 10)
          = 9999999999800000000001
      ∧ ¬((9 : ℚ) = 9999999999800000000001) := by
  refine ⟨by decide, by decide, by decide, by decide, by decide⟩

/-- C8 amended: a successful evaluation is the raw RPN result
post-processed by `_roundResult`: magnitudes below `1e-10` collapse to
exactly `0`, and otherwise the raw value is rounded (half up) to 10
decimal places; the rounded value is returned verbatim when it is not
whole, and a whole rounded value is passed through `parseInt(rounded)` —
the identity below `1e21` (so the claimed rounding formula holds there,
e.g. `evaluate("3.14+2.86") = 6`), but a truncation of the exponential
rendering for whole values of magnitude at least `1e21`; in every case
the result is an integer multiple of `1e-10`. -/
theorem c8_result_rounding :
    (∀ s v, ExpressionEngine.evaluate s = .ok v →
        ∃ raw, evaluateRPNRaw (toReversePolishNotation s) = .ok raw ∧ v = jsRoundNum raw)
      ∧ (∀ q : ℚ, ratLt (ratAbs q) (mkRat 1 (10 ^ 10)) = true ↔ |q| < 1 / 10 ^ 10)
      ∧ (∀ q : ℚ, ratLt (ratAbs q) (mkRat 1 (10 ^ 10)) = true → roundResult q = 0)
      ∧ (∀ q : ℚ, ratLt (ratAbs q) (mkRat 1 (10 ^ 10)) = false →
          ¬((mkRat (jsRound (qMul q (mkRat (10 ^ 10) 1))) (10 ^ 10)).den = 1) →
          roundResult q = (⌊q * 10 ^ 10 + 1 / 2⌋ : ℚ) / 10 ^ 10)
      ∧ (∀ q : ℚ, ratLt (ratAbs q) (mkRat 1 (10 ^ 10)) = false →
          (mkRat (jsRound (qMul q (mkRat (10 ^ 10) 1))) (10 ^ 10)).den = 1 →
          roundResult q
            = jsParseIntNum (mkRat (jsRound (qMul q (mkRat (10 ^ 10) 1))) (10 ^ 10)))
      ∧ (∀ q : ℚ, ratLt (ratAbs q) (mkRat 1 (10 ^ 10)) = false →
          (mkRat (jsRound (qMul q (mkRat (10 ^ 10) 1))) (10 ^ 10)).den = 1 →
          ratLt (ratAbs (mkRat (jsRound (qMul q (mkRat (10 ^ 10) 1))) (10 ^ 10)))
              (mkRat (10 ^ 21) 1) = true →
          roundResult q = (⌊q * 10 ^ 10 + 1 / 2⌋ : ℚ) / 10 ^ 10)
      ∧ (∀ q : ℚ, ∃ n : ℤ, roundResult q = (n : ℚ) / 10 ^ 10)
      ∧ ExpressionEngine.evaluate (("3.14+2.86").toList) = .ok (some 6)
      ∧ ExpressionEngine.evaluate (("2+2").toList) = .ok (some 4) := by
  refine ⟨?_, ?_, ?_, ?_, ?_, ?_, ?_, by decide, by decide⟩
  · intro s v h
    rw [ExpressionEngine.evaluate, CalculationEngine.calculate] at h
    rcases hv : validateExpression s with e | u
    · rw [hv] at h; cases h
    · rw [hv] at h
      rw [evaluateRPN] at h
      rcases hr : evaluateRPNRaw (toReversePolishNotation s) with e | w
      · rw [hr] at h; cases h
      · rw [hr] at h
        exact ⟨w, rfl, (Except.ok.injEq _ _).mp h.symm⟩
  · intro q
    rw [ratLt_iff, ratAbs_eq, mkRat_eq_div]
    norm_num
  · intro q h
    rw [roundResult, if_pos h]
  · intro q hsmall hden
    rw [roundResult, if_neg (by rw [hsmall]; exact Bool.false_ne_true), if_neg hden,
      rounded_eq_floor_form]
  · intro q hsmall hden
    rw [roundResult, if_neg (by rw [hsmall]; exact Bool.false_ne_true), if_pos hden]
  · intro q hsmall hden hlt21
    rw [roundResult, if_neg (by rw [hsmall]; exact Bool.false_ne_true), if_pos hden,
      jsParseIntNum_whole hden hlt21, rounded_eq_floor_form]
  · intro q
    rcases hlt : ratLt (ratAbs q) (mkRat 1 (10 ^ 10)) with _ | _
    · by_cases hden : (mkRat (jsRound (qMul q (mkRat (10 ^ 10) 1))) (10 ^ 10)).den = 1
      · obtain ⟨n, hn⟩ :=
          jsParseIntNum_int (mkRat (jsRound (qMul q (mkRat (10 ^ 10) 1))) (10 ^ 10))
        refine ⟨n * 10 ^ 10, ?_⟩
        rw [roundResult, if_neg (by rw [hlt]; exact Bool.false_ne_true), if_pos hden, hn]
        rw [show ((n * 10 ^ 10 : ℤ) : ℚ) = (n : ℚ) * 10 ^ 10 from by push_cast; ring]
        rw [mul_div_assoc]
        norm_num
      · refine ⟨⌊q * 10 ^ 10 + 1 / 2⌋, ?_⟩
        rw [roundResult, if_neg (by rw [hlt]; exact Bool.false_ne_true), if_neg hden,
          rounded_eq_floor_form]
    · refine ⟨0, ?_⟩
      rw [roundResult, if_pos hlt]
      norm_num

/-- Witness for C8: the raw/rounded decomposition at `"2+2"`, the
small-magnitude collapse at `1 / 10 ^ 11`, the non-whole rounding at
`1 / 3`, and the whole-value `parseInt` identity at `2`. -/
theorem c8_result_rounding_witness :
    (∃ raw, evaluateRPNRaw (toReversePolishNotation (("2+2").toList)) = .ok raw
        ∧ some (4 : ℚ) = jsRoundNum raw)
      ∧ roundResult (mkRat 1 (10 ^ 11)) = 0
      ∧ roundResult (mkRat 1 3) = (⌊(mkRat 1 3 : ℚ) * 10 ^ 10 + 1 / 2⌋ : ℚ) / 10 ^ 10
      ∧ roundResult 2
          = jsParseIntNum (mkRat (jsRound (qMul 2 (mkRat (10 ^ 10) 1))) (10 ^ 10))
      ∧ roundResult 2 = (⌊(2 : ℚ) * 10 ^ 10 + 1 / 2⌋ : ℚ) / 10 ^ 10 := by
  exact ⟨c8_result_rounding.1 (("2+2").toList) (some 4) (by decide),
    c8_result_rounding.2.2.1 (mkRat 1 (10 ^ 11)) (by decide),
    c8_result_rounding.2.2.2.1 (mkRat 1 3) (by decide) (by decide),
    c8_result_rounding.2.2.2.2.1 2 (by decide) (by decide),
    c8_result_rounding.2.2.2.2.2.1 2 (by decide) (by decide) (by decide)⟩

/-! ## C3: the display-length bound -/

/-- C3 counterexample: sixteen digit presses fill the display to the
16-character bound, and a decimal-point press — whose branch of
`updateInput` has no length check — extends it to 17 characters, so the
bound is not an invariant of all reachable states. -/
theorem c3_counterexample :
    (List.replicate 16 (CalcAction.input ['1']) ++ [CalcAction.input ['.']]).all
        CalcAction.valid = true
      ∧ (runCalc (List.replicate 16 (CalcAction.input ['1'])
          ++ [CalcAction.input ['.']])).currentInput.length = 17
      ∧ ¬(runCalc (List.replicate 16 (CalcAction.input ['1'])
          ++ [CalcAction.input ['.']])).currentInput.length ≤ 16 := by
  refine ⟨by decide, by decide, by decide⟩

/-- C3 amended: `updateInput` with a digit never grows `currentInput`
past the 16-character bound — a digit beyond the bound is dropped, the
input left unchanged — but the bound is not a reachable-state invariant:
the decimal-point branch of `updateInput` (and `calculate()` writing a
long result) can exceed it. -/
theorem c3_digit_bound (st : CalculatorState) (d : Char) (hd : isDigitChar d = true) :
    (st.updateInput [d]).currentInput.length ≤ max st.currentInput.length 16
      ∧ (st.currentInput ≠ defaultDisplay → st.shouldResetDisplay = false →
          16 ≤ st.currentInput.length → st.updateInput [d] = st) := by
  have hne : ¬([d] = ['.']) := by
    intro h
    rw [List.cons.injEq] at h
    rw [h.1] at hd
    exact absurd hd (by decide)
  rw [CalculatorState.updateInput, if_neg hne]
  by_cases h1 : st.currentInput = defaultDisplay ∨ st.shouldResetDisplay = true
  · rw [if_pos h1]
    refine ⟨by simp, ?_⟩
    intro hd1 hd2 _
    rcases h1 with h1 | h1
    · exact absurd h1 hd1
    · rw [hd2] at h1; cases h1
  · rw [if_neg h1]
    by_cases h2 : st.currentInput.length < 16
    · rw [if_pos h2]
      refine ⟨?_, ?_⟩
      · simp only [List.length_append, List.length_cons, List.length_nil]
        omega
      · intro _ _ hge
        omega
    · rw [if_neg h2]
      exact ⟨le_max_left _ _, fun _ _ _ => rfl⟩

/-- Witness for C3 at a concrete full display. -/
theorem c3_digit_bound_witness :
    ({ CalculatorState.initial with
        currentInput := List.replicate 16 '1' }.updateInput ['7']).currentInput.length
        ≤ max (List.replicate 16 '1').length 16
      ∧ { CalculatorState.initial with
          currentInput := List.replicate 16 '1' }.updateInput ['7']
        = { CalculatorState.initial with currentInput := List.replicate 16 '1' } := by
  have h := c3_digit_bound { CalculatorState.initial with
    currentInput := List.replicate 16 '1' } '7' (by decide)
  exact ⟨h.1, h.2 (by decide) (by decide) (by decide)⟩

/-! ## Shape lemmas for the display invariant -/

theorem digitDot_not_white (c : Char) (h : digitDot c = true) : isWhiteChar c = false := by
  cases hw : isWhiteChar c with
  | false => rfl
  | true =>
    rw [isWhiteChar, decide_eq_true_iff] at hw
    rcases hw with rfl | rfl | rfl | rfl | rfl | rfl <;> exact absurd h (by decide)

theorem numBody_sublist {b' b : List Char} (hs : List.Sublist b' b) (h : numBody b = true) :
    numBody b' = true := by
  rw [numBody, Bool.and_eq_true] at h ⊢
  refine ⟨?_, ?_⟩
  · rw [List.all_eq_true] at h ⊢
    exact fun c hc => h.1 c (hs.subset hc)
  · rw [decide_eq_true_iff] at h ⊢
    exact le_trans (hs.count_le '.') h.2

theorem numBody_append_digit {b : List Char} {d : Char} (h : numBody b = true)
    (hd : isDigitChar d = true) : numBody (b ++ [d]) = true := by
  rw [numBody, Bool.and_eq_true] at h ⊢
  refine ⟨?_, ?_⟩
  · rw [List.all_append, h.1, Bool.true_and, List.all_cons, List.all_nil, Bool.and_true,
      jsNumChar, hd, Bool.true_or]
  · rw [decide_eq_true_iff] at h ⊢
    rw [List.count_append]
    have hne : ¬('.' = d) := by
      rintro rfl
      exact absurd hd (by decide)
    have : List.count '.' [d] = 0 := by
      rw [List.count_eq_zero]
      simp only [List.mem_singleton]
      exact hne
    omega

theorem numBody_append_dot {b : List Char} (h : numBody b = true)
    (hd : ¬('.' ∈ b)) : numBody (b ++ ['.']) = true := by
  rw [numBody, Bool.and_eq_true] at h ⊢
  refine ⟨?_, ?_⟩
  · rw [List.all_append, h.1, Bool.true_and]
    decide
  · rw [decide_eq_true_iff]
    rw [List.count_append, List.count_eq_zero.mpr hd]
    decide

theorem numBody_of_numShaped {s : List Char} (h : numShaped s = true) :
    numBody s = true := by
  rcases s with _ | ⟨c, rest⟩
  · exact absurd h (by decide)
  · rw [numShaped] at h
    exact h

theorem numShaped_of_numBody {s : List Char} (hne : s ≠ []) (h : numBody s = true) :
    numShaped s = true := by
  rcases s with _ | ⟨c, rest⟩
  · exact absurd rfl hne
  · rw [numShaped]
    exact h

theorem numShaped_single_digit {d : Char} (hd : isDigitChar d = true) :
    numShaped [d] = true := by
  refine numShaped_of_numBody (by intro h; cases h) ?_
  rw [numBody, Bool.and_eq_true]
  refine ⟨?_, ?_⟩
  · rw [List.all_cons, List.all_nil, Bool.and_true, jsNumChar, hd, Bool.true_or]
  · rw [decide_eq_true_iff]
    have hnd : ¬('.' = d) := by
      rintro rfl
      exact absurd hd (by decide)
    have : List.count '.' [d] = 0 := by
      rw [List.count_eq_zero]
      simp only [List.mem_singleton]
      exact hnd
    omega

theorem numShaped_append_digit {s : List Char} {d : Char} (h : numShaped s = true)
    (hd : isDigitChar d = true) : numShaped (s ++ [d]) = true := by
  refine numShaped_of_numBody ?_ (numBody_append_digit (numBody_of_numShaped h) hd)
  simp

theorem numShaped_append_dot {s : List Char} (h : numShaped s = true)
    (hdot : ¬('.' ∈ s)) : numShaped (s ++ ['.']) = true := by
  refine numShaped_of_numBody ?_ (numBody_append_dot (numBody_of_numShaped h) hdot)
  simp

theorem numShaped_dropLast {s : List Char} (h : numShaped s = true)
    (hlen : 1 < s.length) : numShaped s.dropLast = true := by
  refine numShaped_of_numBody ?_
    (numBody_sublist (List.dropLast_sublist s) (numBody_of_numShaped h))
  intro hcontra
  have hlen2 := congrArg List.length hcontra
  rw [List.length_dropLast] at hlen2
  simp only [List.length_nil] at hlen2
  omega

theorem numShaped_chars {s : List Char} (h : numShaped s = true) :
    ∀ c ∈ s, jsNumChar c = true := by
  have hb := numBody_of_numShaped h
  rw [numBody, Bool.and_eq_true, List.all_eq_true] at hb
  exact hb.1

theorem jsNumChar_not_white (c : Char) (h : jsNumChar c = true) :
    isWhiteChar c = false := by
  cases hw : isWhiteChar c with
  | false => rfl
  | true =>
    rw [isWhiteChar, decide_eq_true_iff] at hw
    rcases hw with rfl | rfl | rfl | rfl | rfl | rfl <;> exact absurd h (by decide)

theorem numShaped_not_white {s : List Char} (h : numShaped s = true) :
    ∀ c ∈ s, isWhiteChar c = false := by
  intro c hc
  exact jsNumChar_not_white c (numShaped_chars h c hc)

theorem errLike_not_white {s : List Char} (h : errLike s = true) :
    ∀ c ∈ s, isWhiteChar c = false := by
  rw [errLike, decide_eq_true_iff] at h
  simp only [errForms, List.mem_cons, List.not_mem_nil, or_false] at h
  rcases h with rfl | rfl | rfl | rfl | rfl | rfl | rfl | rfl | rfl | rfl <;> decide

theorem errLike_dropLast {s : List Char} (h : errLike s = true)
    (hlen : 1 < s.length) : errLike s.dropLast = true := by
  rw [errLike, decide_eq_true_iff] at h
  simp only [errForms, List.mem_cons, List.not_mem_nil, or_false] at h
  rcases h with rfl | rfl | rfl | rfl | rfl | rfl | rfl | rfl | rfl | rfl <;>
    first
      | exact absurd hlen (by decide)
      | decide

theorem errLike_append_dot {s : List Char} (h : errLike s = true)
    (hdot : ¬('.' ∈ s)) : errLike (s ++ ['.']) = true := by
  rw [errLike, decide_eq_true_iff] at h
  simp only [errForms, List.mem_cons, List.not_mem_nil, or_false] at h
  rcases h with rfl | rfl | rfl | rfl | rfl | rfl | rfl | rfl | rfl | rfl <;>
    first
      | decide
      | exact absurd (by decide) hdot

/-! ## Tokens of whitespace-free input are never `NaN` -/

theorem dropWhile_of_not_white {t : List Char} (h : ∀ c ∈ t, isWhiteChar c = false) :
    t.dropWhile isWhiteChar = t := by
  rcases t with _ | ⟨c, rest⟩
  · rfl
  · rw [List.dropWhile_cons, h c (List.mem_cons_self c rest)]
    simp

theorem trimWhite_of_not_white {t : List Char} (h : ∀ c ∈ t, isWhiteChar c = false) :
    trimWhite t = t := by
  rw [trimWhite, dropWhile_of_not_white h, dropWhile_of_not_white ?_, List.reverse_reverse]
  intro c hc
  exact h c (List.mem_reverse.mp hc)

theorem tokenizeAux_good :
    ∀ (s acc : List Char), (∀ c ∈ s, isWhiteChar c = false) →
      (∀ c ∈ acc, digitDot c = true) → ∀ t ∈ tokenizeAux s acc, GoodTok t := by
  intro s
  induction s with
  | nil =>
    intro acc _ hacc t ht
    rw [tokenizeAux] at ht
    rcases hae : acc.isEmpty with _ | _
    · rw [hae, if_neg Bool.false_ne_true] at ht
      rcases List.mem_singleton.mp ht with rfl
      have hne : ¬(t = []) := by
        intro hnil
        rw [hnil] at hae
        cases hae
      exact Or.inl ⟨hne, hacc⟩
    · rw [hae, if_pos rfl] at ht
      cases ht
  | cons c rest ih =>
    intro acc hs hacc t ht
    have hrest : ∀ x ∈ rest, isWhiteChar x = false :=
      fun x hx => hs x (List.mem_cons_of_mem c hx)
    rw [tokenizeAux] at ht
    by_cases hc : digitDot c = true
    · rw [if_pos hc] at ht
      refine ih (acc ++ [c]) hrest ?_ t ht
      intro x hx
      rcases List.mem_append.mp hx with hx | hx
      · exact hacc x hx
      · rcases List.mem_singleton.mp hx with rfl
        exact hc
    · rw [if_neg hc] at ht
      rcases List.mem_append.mp ht with hx | hx
      · rcases List.mem_append.mp hx with hx | hx
        · rcases hae : acc.isEmpty with _ | _
          · rw [hae, if_neg Bool.false_ne_true] at hx
            rcases List.mem_singleton.mp hx with rfl
            have hne : ¬(t = []) := by
              intro hnil
              rw [hnil] at hae
              cases hae
            exact Or.inl ⟨hne, hacc⟩
          · rw [hae, if_pos rfl] at hx
            cases hx
        · by_cases hsp : c = ' '
          · rw [if_pos hsp] at hx
            cases hx
          · rw [if_neg hsp] at hx
            rcases List.mem_singleton.mp hx with rfl
            exact Or.inr ⟨c, rfl, Bool.not_eq_true _ ▸ eq_false_of_ne_true hc,
              hs c (List.mem_cons_self c rest)⟩
      · exact ih [] hrest (by intro x hx; cases hx) t hx

theorem parseFloat_isSome_of_good {t : List Char} (hg : GoodTok t)
    (hn : isNumberTok t = true) : (jsParseFloat t).isSome = true := by
  rcases hg with ⟨hne, hdd⟩ | ⟨c, rfl, hdd, hw⟩
  · have hnw : ∀ c ∈ t, isWhiteChar c = false :=
      fun c hc => digitDot_not_white c (hdd c hc)
    rw [isNumberTok, jsStrToNumber, trimWhite_of_not_white hnw] at hn
    have hte : t.isEmpty = false := by
      rcases t with _ | _
      · exact absurd rfl hne
      · rfl
    rw [hte, if_neg Bool.false_ne_true] at hn
    rcases hv : validNumericStr t with _ | _
    · rw [hv, if_neg Bool.false_ne_true] at hn
      cases hn
    · rw [jsParseFloat, dropWhile_of_not_white hnw, takeWhile_of_all hdd, hv, if_pos rfl]
      rfl
  · exfalso
    have hnw : ∀ x ∈ [c], isWhiteChar x = false := by
      intro x hx
      rcases List.mem_singleton.mp hx with rfl
      exact hw
    rw [isNumberTok, jsStrToNumber, trimWhite_of_not_white hnw] at hn
    rw [show ([c] : List Char).isEmpty = false from rfl, if_neg Bool.false_ne_true] at hn
    have hv : validNumericStr [c] = false := by
      rw [validNumericStr, List.all_cons, hdd]
      rfl
    rw [hv, if_neg Bool.false_ne_true] at hn
    cases hn

theorem popHigher_no_num :
    ∀ (p : ℕ) (ops : List (List Char)) (v : JsNum),
      RTok.num v ∈ (popHigher p ops).2 → False := by
  intro p ops
  induction ops with
  | nil =>
    intro v hv
    rw [popHigher] at hv
    cases hv
  | cons top rest ih =>
    intro v hv
    rw [popHigher] at hv
    by_cases h1 : (top = ['('] || ¬isOpTok top) = true
    · rw [if_pos h1] at hv
      cases hv
    · rw [if_neg h1] at hv
      by_cases h2 : p < tokPrec top
      · rw [if_pos h2] at hv
        rcases hpr : popHigher p rest with ⟨st, out⟩
        rw [hpr] at hv
        simp only at hv
        rcases List.mem_cons.mp hv with heq | hmem
        · cases heq
        · exact ih v (by rw [hpr]; exact hmem)
      · rw [if_neg h2] at hv
        cases hv

theorem syAux_num_isSome :
    ∀ (tokens : List (List Char)) (ops : List (List Char)),
      (∀ t ∈ tokens, GoodTok t) →
      ∀ v, RTok.num v ∈ syAux tokens ops → v.isSome = true := by
  intro tokens
  induction tokens with
  | nil =>
    intro ops _ v hv
    rw [syAux] at hv
    rcases List.mem_map.mp hv with ⟨t, _, ht⟩
    cases ht
  | cons t rest ih =>
    intro ops htok v hv
    have hrest : ∀ x ∈ rest, GoodTok x :=
      fun x hx => htok x (List.mem_cons_of_mem t hx)
    have hthis : GoodTok t := htok t (List.mem_cons_self t rest)
    rw [syAux] at hv
    by_cases h1 : isNumberTok t = true
    · rw [if_pos h1] at hv
      rcases List.mem_cons.mp hv with heq | hmem
      · rcases heq with ⟨⟩
        exact parseFloat_isSome_of_good hthis h1
      · exact ih ops hrest v hmem
    · rw [if_neg h1] at hv
      by_cases h2 : isOpTok t = true
      · rw [if_pos h2] at hv
        rcases hpp : popHigher (tokPrec t) ops with ⟨ops', popped⟩
        rw [hpp] at hv
        simp only at hv
        rcases List.mem_append.mp hv with hmem | hmem
        · exact absurd (by rw [hpp]; exact hmem) fun hh => popHigher_no_num _ _ _ hh
        · exact ih _ hrest v hmem
      · rw [if_neg h2] at hv
        by_cases h3 : t = ['(']
        · rw [if_pos h3] at hv
          exact ih _ hrest v hv
        · rw [if_neg h3] at hv
          by_cases h4 : t = [')']
          · rw [if_pos h4] at hv
            rcases List.mem_append.mp hv with hmem | hmem
            · rcases List.mem_map.mp hmem with ⟨x, _, hx⟩
              cases hx
            · exact ih _ hrest v hmem
          · rw [if_neg h4] at hv
            exact ih _ hrest v hv

theorem evalRPNStep_some {t : List Char} {stack stack1 : List JsNum}
    (hstack : ∀ v ∈ stack, v.isSome = true)
    (h : evalRPNStep t stack = .ok stack1) : ∀ v ∈ stack1, v.isSome = true := by
  rcases stack with _ | ⟨b, stack'⟩
  · cases h
  · rcases stack' with _ | ⟨a, rest⟩
    · cases h
    · have hb : b.isSome = true := hstack b (List.mem_cons_self b (a :: rest))
      have ha : a.isSome = true :=
        hstack a (List.mem_cons_of_mem b (List.mem_cons_self a rest))
      rcases b with _ | y
      · cases hb
      · rcases a with _ | x
        · cases ha
        · rw [evalRPNStep,
            show execNum t (some x) (some y) = (execOp t x y).map some from rfl] at h
          rcases hex : execOp t x y with e | z
          · rw [hex] at h
            cases h
          · rw [hex] at h
            simp only [Except.map] at h
            rcases h with ⟨⟩
            intro v hv
            rcases List.mem_cons.mp hv with rfl | hv
            · rfl
            · exact hstack v (List.mem_cons_of_mem _ (List.mem_cons_of_mem _ hv))

theorem evalRPNAux_some :
    ∀ (rpn : List RTok) (stack : List JsNum),
      (∀ v, RTok.num v ∈ rpn → v.isSome = true) →
      (∀ v ∈ stack, v.isSome = true) →
      ∀ res, evalRPNAux rpn stack = .ok res → ∀ v ∈ res, v.isSome = true := by
  intro rpn
  induction rpn with
  | nil =>
    intro stack _ hstack res hres
    rw [evalRPNAux] at hres
    rcases hres with ⟨⟩
    exact hstack
  | cons tok rest ih =>
    intro stack hnum hstack res hres
    have hrest : ∀ v, RTok.num v ∈ rest → v.isSome = true :=
      fun v hv => hnum v (List.mem_cons_of_mem tok hv)
    cases tok with
    | num v =>
      rw [evalRPNAux] at hres
      refine ih (v :: stack) hrest ?_ res hres
      intro x hx
      rcases List.mem_cons.mp hx with rfl | hx
      · exact hnum x (List.mem_cons_self _ rest)
      · exact hstack x hx
    | str t =>
      rw [evalRPNAux] at hres
      by_cases hop : isOpTok t = true
      · rw [if_pos hop] at hres
        rcases hstep : evalRPNStep t stack with e | stack1
        · rw [hstep] at hres
          cases hres
        · rw [hstep] at hres
          exact ih stack1 hrest (evalRPNStep_some hstack hstep) res hres
      · rw [if_neg hop] at hres
        exact ih stack hrest hstack res hres

/-- Over a whitespace-free input every number pushed to the RPN output is
finite, so a successful `calculate` never returns `NaN`. -/
theorem calculate_ok_isSome {s : List Char} {v : JsNum}
    (hs : ∀ c ∈ s, isWhiteChar c = false)
    (h : CalculationEngine.calculate s = .ok v) : v.isSome = true := by
  rw [CalculationEngine.calculate] at h
  rcases hv : validateExpression s with e | u
  · rw [hv] at h; cases h
  · rw [hv, evaluateRPN, evaluateRPNRaw] at h
    rcases he : evalRPNAux (toReversePolishNotation s) [] with e | stack
    · rw [he] at h
      cases h
    · rw [he] at h
      rcases stack with _ | ⟨w0, stack1⟩
      · cases h
      · rcases stack1 with _ | ⟨w1, stack2⟩
        · have hw0 : w0.isSome = true := by
            have hgood : ∀ t ∈ tokenizeExpression s, GoodTok t :=
              tokenizeAux_good s [] hs (by intro c hc; cases hc)
            have hnum : ∀ x, RTok.num x ∈ toReversePolishNotation s → x.isSome = true :=
              fun x hx => syAux_num_isSome (tokenizeExpression s) [] hgood x hx
            exact evalRPNAux_some (toReversePolishNotation s) [] hnum
              (by intro x hx; cases hx) [w0] he w0 (List.mem_singleton.mpr rfl)
          rcases h with ⟨⟩
          rcases w0 with _ | q
          · cases hw0
          · rfl
        · cases h

/-! ## Rendering produces numeric-shaped strings -/

theorem stripTrailingZeros_subset {l : List Char} :
    ∀ c ∈ stripTrailingZeros l, c ∈ l := by
  intro c hc
  rw [stripTrailingZeros] at hc
  rw [List.mem_reverse] at hc
  have := (List.dropWhile_sublist (l := l.reverse) (p := fun c => c = '0')).subset hc
  exact List.mem_reverse.mp this

theorem ratToString_fraction_digits (q : ℚ) :
    ∀ c ∈ stripTrailingZeros
        (List.replicate
            (10 - (natDigits ((qMul (qSub (ratAbs q) (mkRat (ratAbs q).floor.toNat 1))
              (mkRat (10 ^ 10) 1)).floor.toNat)).length) '0'
          ++ natDigits ((qMul (qSub (ratAbs q) (mkRat (ratAbs q).floor.toNat 1))
              (mkRat (10 ^ 10) 1)).floor.toNat)),
      isDigitChar c = true := by
  intro c hc
  have hc2 := stripTrailingZeros_subset c hc
  rcases List.mem_append.mp hc2 with hc2 | hc2
  · rcases List.eq_of_mem_replicate hc2 with rfl
    decide
  · exact natDigits_all_digit _ c hc2

theorem numBody_of_digits_tail {intpart tail : List Char}
    (hint : ∀ c ∈ intpart, isDigitChar c = true)
    (htail : tail = [] ∨ ∃ fr, tail = '.' :: fr ∧ ∀ c ∈ fr, isDigitChar c = true) :
    numBody (intpart ++ tail) = true := by
  have hdot_int : List.count '.' intpart = 0 := by
    rw [List.count_eq_zero]
    intro hmem
    exact absurd (hint '.' hmem) (by decide)
  rw [numBody, Bool.and_eq_true]
  rcases htail with rfl | ⟨fr, rfl, hfr⟩
  · refine ⟨?_, ?_⟩
    · rw [List.all_eq_true]
      intro c hc
      rw [List.append_nil] at hc
      rw [jsNumChar, hint c hc, Bool.true_or]
    · rw [decide_eq_true_iff, List.append_nil, hdot_int]
      omega
  · have hdot_fr : List.count '.' fr = 0 := by
      rw [List.count_eq_zero]
      intro hmem
      exact absurd (hfr '.' hmem) (by decide)
    refine ⟨?_, ?_⟩
    · rw [List.all_eq_true]
      intro c hc
      rcases List.mem_append.mp hc with hc | hc
      · rw [jsNumChar, hint c hc, Bool.true_or]
      · rcases List.mem_cons.mp hc with rfl | hc
        · decide
        · rw [jsNumChar, hfr c hc, Bool.true_or]
    · rw [decide_eq_true_iff, List.count_append, hdot_int, List.count_cons, hdot_fr]
      simp

theorem numBody_cons_minus {b : List Char} (h : numBody b = true) :
    numBody ('-' :: b) = true := by
  rw [numBody, Bool.and_eq_true] at h ⊢
  refine ⟨?_, ?_⟩
  · rw [List.all_cons, h.1, Bool.and_true]
    decide
  · rw [decide_eq_true_iff] at h ⊢
    rw [List.count_cons_of_ne (by decide)]
    exact h.2

theorem renderPlain_numBody (q : ℚ) : numBody (renderPlain q) = true := by
  simp only [renderPlain]
  have hint := natDigits_all_digit (ratAbs q).floor.toNat
  have htail : (if (stripTrailingZeros
        (List.replicate
            (10 - (natDigits ((qMul (qSub (ratAbs q) (mkRat (ratAbs q).floor.toNat 1))
              (mkRat (10 ^ 10) 1)).floor.toNat)).length) '0'
          ++ natDigits ((qMul (qSub (ratAbs q) (mkRat (ratAbs q).floor.toNat 1))
              (mkRat (10 ^ 10) 1)).floor.toNat))).isEmpty
      then ([] : List Char)
      else '.' :: stripTrailingZeros
        (List.replicate
            (10 - (natDigits ((qMul (qSub (ratAbs q) (mkRat (ratAbs q).floor.toNat 1))
              (mkRat (10 ^ 10) 1)).floor.toNat)).length) '0'
          ++ natDigits ((qMul (qSub (ratAbs q) (mkRat (ratAbs q).floor.toNat 1))
              (mkRat (10 ^ 10) 1)).floor.toNat))) = []
      ∨ ∃ fr, (if (stripTrailingZeros
        (List.replicate
            (10 - (natDigits ((qMul (qSub (ratAbs q) (mkRat (ratAbs q).floor.toNat 1))
              (mkRat (10 ^ 10) 1)).floor.toNat)).length) '0'
          ++ natDigits ((qMul (qSub (ratAbs q) (mkRat (ratAbs q).floor.toNat 1))
              (mkRat (10 ^ 10) 1)).floor.toNat))).isEmpty
      then ([] : List Char)
      else '.' :: stripTrailingZeros
        (List.replicate
            (10 - (natDigits ((qMul (qSub (ratAbs q) (mkRat (ratAbs q).floor.toNat 1))
              (mkRat (10 ^ 10) 1)).floor.toNat)).length) '0'
          ++ natDigits ((qMul (qSub (ratAbs q) (mkRat (ratAbs q).floor.toNat 1))
              (mkRat (10 ^ 10) 1)).floor.toNat))) = '.' :: fr
        ∧ ∀ c ∈ fr, isDigitChar c = true := by
    by_cases hemp : (stripTrailingZeros
        (List.replicate
            (10 - (natDigits ((qMul (qSub (ratAbs q) (mkRat (ratAbs q).floor.toNat 1))
              (mkRat (10 ^ 10) 1)).floor.toNat)).length) '0'
          ++ natDigits ((qMul (qSub (ratAbs q) (mkRat (ratAbs q).floor.toNat 1))
              (mkRat (10 ^ 10) 1)).floor.toNat))).isEmpty = true
    · rw [if_pos hemp]
      exact Or.inl rfl
    · rw [if_neg hemp]
      exact Or.inr ⟨_, rfl, ratToString_fraction_digits q⟩
  have hbody := numBody_of_digits_tail hint htail
  by_cases hneg : q.num < 0
  · rw [if_pos hneg, List.append_assoc, List.cons_append, List.nil_append]
    exact numBody_cons_minus hbody
  · rw [if_neg hneg, List.nil_append]
    exact hbody

theorem renderPlain_ne_nil (q : ℚ) : renderPlain q ≠ [] := by
  simp only [renderPlain]
  intro h
  rw [List.append_assoc] at h
  have h2 := (List.append_eq_nil.mp h).2
  have h3 := (List.append_eq_nil.mp h2).1
  exact natDigits_ne_nil _ h3

theorem count_dot_digits {l : List Char} (h : ∀ c ∈ l, isDigitChar c = true) :
    l.count '.' = 0 := by
  rw [List.count_eq_zero]
  intro hm
  exact absurd (h '.' hm) (by decide)

theorem renderExp_numBody (q : ℚ) (n e : ℕ) (sgn : Char)
    (hsgn : jsNumChar sgn = true) (hsgn_ne : ¬('.' = sgn)) :
    numBody ((if q.num < 0 then ['-'] else ([] : List Char))
      ++ [(natDigits n).headD '0']
      ++ (if (stripTrailingZeros (natDigits n).tail).isEmpty then ([] : List Char)
          else '.' :: stripTrailingZeros (natDigits n).tail)
      ++ 'e' :: sgn :: natDigits e) = true := by
  have hhead : isDigitChar ((natDigits n).headD '0') = true := by
    rcases hd : natDigits n with _ | ⟨c, cs⟩
    · exact absurd hd (natDigits_ne_nil n)
    · rw [List.headD_cons]
      refine natDigits_all_digit n c ?_
      rw [hd]
      exact List.mem_cons_self c cs
  have hmant : ∀ c ∈ stripTrailingZeros (natDigits n).tail, isDigitChar c = true := by
    intro c hc
    have hc2 := stripTrailingZeros_subset c hc
    exact natDigits_all_digit n c (List.mem_of_mem_tail hc2)
  rw [numBody, Bool.and_eq_true]
  constructor
  · rw [List.all_eq_true]
    intro c hc
    rcases List.mem_append.mp hc with hc | hc
    · rcases List.mem_append.mp hc with hc | hc
      · rcases List.mem_append.mp hc with hc | hc
        · by_cases hneg : q.num < 0
          · rw [if_pos hneg] at hc
            rcases List.mem_singleton.mp hc with rfl
            decide
          · rw [if_neg hneg] at hc
            cases hc
        · rcases List.mem_singleton.mp hc with rfl
          rw [jsNumChar, hhead, Bool.true_or]
      · by_cases hemp : (stripTrailingZeros (natDigits n).tail).isEmpty = true
        · rw [if_pos hemp] at hc
          cases hc
        · rw [if_neg hemp] at hc
          rcases List.mem_cons.mp hc with rfl | hc
          · decide
          · rw [jsNumChar, hmant c hc, Bool.true_or]
    · rcases List.mem_cons.mp hc with rfl | hc
      · decide
      · rcases List.mem_cons.mp hc with rfl | hc
        · exact hsgn
        · rw [jsNumChar, natDigits_all_digit e c hc, Bool.true_or]
  · rw [decide_eq_true_iff]
    rw [List.count_append, List.count_append, List.count_append]
    have h1 : List.count '.' (if q.num < 0 then ['-'] else ([] : List Char)) = 0 := by
      by_cases hneg : q.num < 0
      · rw [if_pos hneg]
        decide
      · rw [if_neg hneg]
        rfl
    have h2 : List.count '.' [(natDigits n).headD '0'] = 0 := by
      rw [List.count_eq_zero]
      intro hm
      have heq := List.mem_singleton.mp hm
      rw [← heq] at hhead
      exact absurd hhead (by decide)
    have h3 : List.count '.' (if (stripTrailingZeros (natDigits n).tail).isEmpty
        then ([] : List Char) else '.' :: stripTrailingZeros (natDigits n).tail) ≤ 1 := by
      by_cases hemp : (stripTrailingZeros (natDigits n).tail).isEmpty = true
      · rw [if_pos hemp]
        decide
      · rw [if_neg hemp]
        have hfr := count_dot_digits hmant
        have hcc := List.count_cons_self '.' (stripTrailingZeros (natDigits n).tail)
        omega
    have h4 : List.count '.' ('e' :: sgn :: natDigits e) = 0 := by
      rw [List.count_eq_zero]
      intro hm
      rcases List.mem_cons.mp hm with heq | hm
      · exact absurd heq (by decide)
      · rcases List.mem_cons.mp hm with heq | hm
        · exact absurd heq hsgn_ne
        · exact absurd (natDigits_all_digit e '.' hm) (by decide)
    omega

theorem renderExpLarge_numBody (q : ℚ) : numBody (renderExpLarge q) = true := by
  simp only [renderExpLarge]
  exact renderExp_numBody q (ratAbs q).floor.toNat
    ((natDigits (ratAbs q).floor.toNat).length - 1) '+' (by decide) (by decide)

theorem renderExpSmall_numBody (q : ℚ) : numBody (renderExpSmall q) = true := by
  simp only [renderExpSmall]
  exact renderExp_numBody q ((qMul (ratAbs q) (mkRat (10 ^ 10) 1)).floor).toNat
    (11 - (natDigits ((qMul (ratAbs q) (mkRat (10 ^ 10) 1)).floor).toNat).length) '-'
    (by decide) (by decide)

theorem renderExpLarge_ne_nil (q : ℚ) : renderExpLarge q ≠ [] := by
  simp only [renderExpLarge]
  intro h
  exact absurd (List.append_eq_nil.mp h).2 (List.cons_ne_nil _ _)

theorem renderExpSmall_ne_nil (q : ℚ) : renderExpSmall q ≠ [] := by
  simp only [renderExpSmall]
  intro h
  exact absurd (List.append_eq_nil.mp h).2 (List.cons_ne_nil _ _)

theorem ratToString_numShaped (q : ℚ) : numShaped (ratToString q) = true := by
  rw [ratToString]
  by_cases h1 : ratLt (ratAbs q) (mkRat (10 ^ 21) 1) = false
  · rw [if_pos h1]
    exact numShaped_of_numBody (renderExpLarge_ne_nil q) (renderExpLarge_numBody q)
  · rw [if_neg h1]
    by_cases h2 : (decide (¬(q.num = 0)) && ratLt (ratAbs q) (mkRat 1 (10 ^ 6))) = true
    · rw [if_pos h2]
      exact numShaped_of_numBody (renderExpSmall_ne_nil q) (renderExpSmall_numBody q)
    · rw [if_neg h2]
      exact numShaped_of_numBody (renderPlain_ne_nil q) (renderPlain_numBody q)

/-! ## Preservation of the display invariant -/

theorem opChars_not_white {c : Char} (h : c ∈ opChars) : isWhiteChar c = false := by
  simp only [opChars, List.mem_cons, List.not_mem_nil, or_false] at h
  rcases h with rfl | rfl | rfl | rfl | rfl <;> decide

theorem stateInv_calculate {st : CalculatorState} (hinv : StateInv st) :
    StateInv st.calculate.1 := by
  obtain ⟨h1, h2, h3, h4⟩ := hinv
  cases hop : st.operator with
  | none =>
    simp only [CalculatorState.calculate, hop]
    exact ⟨h1, h2, h3, h4⟩
  | some op =>
    by_cases hprev : st.previousInput = []
    · simp only [CalculatorState.calculate, hop, if_pos hprev]
      exact ⟨h1, h2, h3, h4⟩
    · simp only [CalculatorState.calculate, hop, if_neg hprev]
      rcases heng : CalculationEngine.calculate
          (st.previousInput ++ op :: st.currentInput) with e | r
      · refine ⟨Or.inr (show errLike errorMessage = true from by decide), ?_,
          Or.inl rfl, ?_⟩
        · intro hcontra
          cases hcontra
        · intro c hc
          cases hc
      · have hwhite : ∀ x ∈ st.previousInput ++ op :: st.currentInput,
            isWhiteChar x = false := by
          intro x hx
          rcases List.mem_append.mp hx with hx | hx
          · rcases h3 with h3 | h3 | h3
            · exact absurd h3 hprev
            · exact numShaped_not_white h3 x hx
            · exact errLike_not_white h3 x hx
          · rcases List.mem_cons.mp hx with rfl | hx
            · exact opChars_not_white (h4 x hop)
            · rcases h1 with h1 | h1
              · exact numShaped_not_white h1 x hx
              · exact errLike_not_white h1 x hx
        have hsome : r.isSome = true := calculate_ok_isSome hwhite heng
        rcases r with _ | q
        · cases hsome
        · refine ⟨Or.inl ?_, ?_, Or.inl rfl, ?_⟩
          · exact ratToString_numShaped q
          · intro hcontra
            cases hcontra
          · intro c hc
            cases hc

theorem digitKeys_spec {v : List Char} (h : v ∈ digitKeys) :
    v = ['.'] ∨ ∃ d, v = [d] ∧ isDigitChar d = true := by
  simp only [digitKeys, List.mem_cons, List.not_mem_nil, or_false] at h
  rcases h with rfl | rfl | rfl | rfl | rfl | rfl | rfl | rfl | rfl | rfl | rfl
  · exact Or.inr ⟨_, rfl, by decide⟩
  · exact Or.inr ⟨_, rfl, by decide⟩
  · exact Or.inr ⟨_, rfl, by decide⟩
  · exact Or.inr ⟨_, rfl, by decide⟩
  · exact Or.inr ⟨_, rfl, by decide⟩
  · exact Or.inr ⟨_, rfl, by decide⟩
  · exact Or.inr ⟨_, rfl, by decide⟩
  · exact Or.inr ⟨_, rfl, by decide⟩
  · exact Or.inr ⟨_, rfl, by decide⟩
  · exact Or.inr ⟨_, rfl, by decide⟩
  · exact Or.inl rfl

theorem stateInv_updateInput {st : CalculatorState} (hinv : StateInv st)
    {v : List Char} (hv : v ∈ digitKeys) : StateInv (st.updateInput v) := by
  obtain ⟨h1, h2, h3, h4⟩ := hinv
  rcases digitKeys_spec hv with rfl | ⟨d, rfl, hd⟩
  · rw [CalculatorState.updateInput, if_pos rfl]
    by_cases hdot : '.' ∈ st.currentInput
    · rw [if_pos hdot]
      exact ⟨h1, h2, h3, h4⟩
    · rw [if_neg hdot]
      refine ⟨?_, ?_, h3, h4⟩
      · rcases h1 with h1 | h1
        · exact Or.inl (numShaped_append_dot h1 hdot)
        · exact Or.inr (errLike_append_dot h1 hdot)
      · intro hflag
        exact numShaped_append_dot (h2 hflag) hdot
  · have hne : ¬([d] = ['.']) := by
      intro hcontra
      rw [List.cons.injEq] at hcontra
      rw [hcontra.1] at hd
      exact absurd hd (by decide)
    rw [CalculatorState.updateInput, if_neg hne]
    by_cases hrep : st.currentInput = defaultDisplay ∨ st.shouldResetDisplay = true
    · rw [if_pos hrep]
      exact ⟨Or.inl (numShaped_single_digit hd), fun _ => numShaped_single_digit hd, h3, h4⟩
    · rw [if_neg hrep]
      have hflag : st.shouldResetDisplay = false := by
        cases hb : st.shouldResetDisplay
        · rfl
        · exact absurd (Or.inr hb) hrep
      have hnum : numShaped st.currentInput = true := h2 hflag
      by_cases hlen : st.currentInput.length < 16
      · rw [if_pos hlen]
        exact ⟨Or.inl (numShaped_append_digit hnum hd),
          fun _ => numShaped_append_digit hnum hd, h3, h4⟩
      · rw [if_neg hlen]
        exact ⟨h1, h2, h3, h4⟩

theorem stateInv_applyOperator {st : CalculatorState} (hinv : StateInv st)
    {c : Char} (hc : c ∈ opChars) : StateInv (st.applyOperator c).1 := by
  rw [CalculatorState.applyOperator]
  by_cases hcond : st.operator.isSome = true ∧ st.shouldResetDisplay = false
  · rw [if_pos hcond]
    have hst1 : StateInv st.calculate.1 := stateInv_calculate hinv
    rcases hcalc : st.calculate with ⟨st1, err⟩
    rw [hcalc] at hst1
    rcases err with _ | e
    · refine ⟨hst1.1, ?_, ?_, ?_⟩
      · intro hcontra
        cases hcontra
      · rcases hst1.1 with hh | hh
        · exact Or.inr (Or.inl hh)
        · exact Or.inr (Or.inr hh)
      · intro c' hc'
        cases hc'
        exact hc
    · exact hst1
  · rw [if_neg hcond]
    obtain ⟨h1, h2, h3, h4⟩ := hinv
    refine ⟨h1, ?_, ?_, ?_⟩
    · intro hcontra
      cases hcontra
    · rcases h1 with hh | hh
      · exact Or.inr (Or.inl hh)
      · exact Or.inr (Or.inr hh)
    · intro c' hc'
      cases hc'
      exact hc

theorem stateInv_backspace {st : CalculatorState} (hinv : StateInv st) :
    StateInv st.backspace := by
  obtain ⟨h1, h2, h3, h4⟩ := hinv
  rw [CalculatorState.backspace]
  by_cases hlen : 1 < st.currentInput.length
  · rw [if_pos hlen]
    refine ⟨?_, ?_, h3, h4⟩
    · rcases h1 with h1 | h1
      · exact Or.inl (numShaped_dropLast h1 hlen)
      · exact Or.inr (errLike_dropLast h1 hlen)
    · intro hflag
      exact numShaped_dropLast (h2 hflag) hlen
  · rw [if_neg hlen]
    exact ⟨Or.inl (show numShaped defaultDisplay = true from by decide),
      fun _ => show numShaped defaultDisplay = true from by decide, h3, h4⟩

theorem stateInv_clear (st : CalculatorState) : StateInv st.clear := by
  refine ⟨Or.inl (show numShaped defaultDisplay = true from by decide),
    fun _ => show numShaped defaultDisplay = true from by decide, Or.inl rfl, ?_⟩
  intro c hc
  cases hc

theorem stateInv_initial : StateInv CalculatorState.initial := by
  refine ⟨Or.inl (by decide), fun _ => by decide, Or.inl rfl, ?_⟩
  intro c hc
  cases hc

theorem stateInv_step {st : CalculatorState} (hinv : StateInv st)
    {a : CalcAction} (ha : a.valid = true) : StateInv (a.step st) := by
  cases a with
  | input v =>
    rw [CalcAction.valid, decide_eq_true_iff] at ha
    exact stateInv_updateInput hinv ha
  | oper c =>
    rw [CalcAction.valid, decide_eq_true_iff] at ha
    exact stateInv_applyOperator hinv ha
  | equals => exact stateInv_calculate hinv
  | back => exact stateInv_backspace hinv
  | clearAll => exact stateInv_clear st

theorem stateInv_foldl :
    ∀ (acts : List CalcAction) (st : CalculatorState), StateInv st →
      (∀ a ∈ acts, a.valid = true) →
      StateInv (acts.foldl (fun st a => a.step st) st) := by
  intro acts
  induction acts with
  | nil => exact fun st hst _ => hst
  | cons a rest ih =>
    intro st hst hval
    rw [List.foldl_cons]
    exact ih (a.step st) (stateInv_step hst (hval a (List.mem_cons_self a rest)))
      fun x hx => hval x (List.mem_cons_of_mem a hx)

theorem runCalc_inv (acts : List CalcAction) (hval : ∀ a ∈ acts, a.valid = true) :
    StateInv (runCalc acts) :=
  stateInv_foldl acts CalculatorState.initial stateInv_initial hval

/-! ## C2: the display contract -/

/-- C2 counterexample: pressing `1`, `/`, `0`, `=` raises
`DivisionByZero` and shows the `"Error"` sentinel, and a `backspace()`
then truncates the sentinel to `"Erro"` — a display that is neither a
valid numeric literal, nor `"0"`, nor `"Error"`, though every event in
the sequence is in the UI's input domain. -/
theorem c2_counterexample :
    ([CalcAction.input ['1'], .oper '/', .input ['0'], .equals, .back]).all
        CalcAction.valid = true
      ∧ (runCalc [CalcAction.input ['1'], .oper '/', .input ['0'], .equals,
          .back]).getDisplayValue = ['E', 'r', 'r', 'o']
      ∧ specDisplayContract (runCalc [CalcAction.input ['1'], .oper '/', .input ['0'],
          .equals, .back]).getDisplayValue = false := by
  refine ⟨by decide, by decide, by decide⟩

/-- C2 amended: in every state reachable through events in the UI's
input domain, the display is either number-shaped (non-empty over the
JavaScript number alphabet — digits, `'.'`, `'-'`, `'e'`, `'+'` — with at
most one `'.'`) or error-shaped (a non-empty prefix of `"Error"`,
optionally followed by `'.'`); the number shapes genuinely include
exponential renderings: entering `0.0000001 + 0 =` leaves the display
showing `"1e-7"`. -/
theorem c2_display_shapes :
    (∀ acts : List CalcAction, (∀ a ∈ acts, a.valid = true) →
        numShaped (runCalc acts).getDisplayValue = true
          ∨ errLike (runCalc acts).getDisplayValue = true)
      ∧ ([CalcAction.input ['0'], .input ['.'], .input ['0'], .input ['0'],
          .input ['0'], .input ['0'], .input ['0'], .input ['0'], .input ['1'],
          .oper '+', .input ['0'], .equals]).all CalcAction.valid = true
      ∧ (runCalc [CalcAction.input ['0'], .input ['.'], .input ['0'], .input ['0'],
          .input ['0'], .input ['0'], .input ['0'], .input ['0'], .input ['1'],
          .oper '+', .input ['0'], .equals]).getDisplayValue = ['1', 'e', '-', '7'] := by
  refine ⟨fun acts hval => (runCalc_inv acts hval).1, by decide, by decide⟩

/-- Witness for C2 at the `"Erro"` sequence. -/
theorem c2_display_shapes_witness :
    numShaped (runCalc [CalcAction.input ['1'], .oper '/', .input ['0'], .equals,
        .back]).getDisplayValue = true
      ∨ errLike (runCalc [CalcAction.input ['1'], .oper '/', .input ['0'], .equals,
        .back]).getDisplayValue = true :=
  c2_display_shapes.1 [CalcAction.input ['1'], .oper '/', .input ['0'], .equals, .back]
    (by decide)

/-! ## The history eviction is a sliding window over the success log -/

theorem lastN_length {α : Type} (l : List α) : (lastN 10 l).length = l.length - (l.length - 10) := by
  rw [lastN, List.length_drop]

theorem lastN_concat {α : Type} (log : List α) (e : α) :
    (if 10 < (lastN 10 log ++ [e]).length then (lastN 10 log ++ [e]).tail
      else lastN 10 log ++ [e]) = lastN 10 (log ++ [e]) := by
  by_cases h : log.length < 10
  · have h0 : log.length - 10 = 0 := by omega
    have hlast : lastN 10 log = log := by
      rw [lastN, h0, List.drop_zero]
    have h1 : (log ++ [e]).length - 10 = 0 := by
      rw [List.length_append]
      simp only [List.length_singleton]
      omega
    rw [hlast, lastN, h1, List.drop_zero, if_neg]
    rw [List.length_append]
    simp only [List.length_singleton]
    omega
  · have h10 : 10 ≤ log.length := by omega
    have hlen : (lastN 10 log).length = 10 := by
      rw [lastN_length]
      omega
    rw [if_pos (by rw [List.length_append, hlen]; simp)]
    have hne : lastN 10 log ≠ [] := by
      intro hcontra
      rw [hcontra] at hlen
      cases hlen
    rw [List.tail_append_of_ne_nil hne, lastN, List.tail_drop]
    have harith : log.length - 10 + 1 = (log ++ [e]).length - 10 := by
      rw [List.length_append]
      simp only [List.length_singleton]
      omega
    rw [harith, lastN, List.drop_append_of_le_length (by omega)]

theorem calcEntry_timestamp {st : CalculatorState} {e : HistoryEntry}
    (h : calcEntry st = some e) : e.timestamp = st.clock := by
  rcases hop : st.operator with _ | op
  · simp only [calcEntry, hop] at h
    cases h
  · by_cases hprev : st.previousInput = []
    · simp only [calcEntry, hop, if_pos hprev] at h
      cases h
    · simp only [calcEntry, hop, if_neg hprev] at h
      rcases heng : CalculationEngine.calculate
          (st.previousInput ++ op :: st.currentInput) with er | r
      · rw [heng] at h
        cases h
      · rw [heng] at h
        rcases h with ⟨⟩
        rfl

theorem histInv_calculate {st : CalculatorState} {log : List HistoryEntry}
    (hinv : HistoryInv st log) :
    HistoryInv st.calculate.1 (log ++ (calcEntry st).toList) := by
  obtain ⟨hh, hc, ht⟩ := hinv
  rcases hop : st.operator with _ | op
  · have hce : calcEntry st = none := by simp only [calcEntry, hop]
    simp only [CalculatorState.calculate, hop, hce, Option.toList_none, List.append_nil]
    exact ⟨hh, hc, ht⟩
  · by_cases hprev : st.previousInput = []
    · have hce : calcEntry st = none := by simp only [calcEntry, hop, if_pos hprev]
      simp only [CalculatorState.calculate, hop, if_pos hprev, hce, Option.toList_none,
        List.append_nil]
      exact ⟨hh, hc, ht⟩
    · rcases heng : CalculationEngine.calculate
          (st.previousInput ++ op :: st.currentInput) with er | r
      · have hce : calcEntry st = none := by simp only [calcEntry, hop, if_neg hprev, heng]
        simp only [CalculatorState.calculate, hop, if_neg hprev, heng, hce,
          Option.toList_none, List.append_nil]
        exact ⟨hh, hc, ht⟩
      · have hce : calcEntry st =
            some ⟨st.previousInput ++ op :: st.currentInput, r, st.clock⟩ := by
          simp only [calcEntry, hop, if_neg hprev, heng]
        simp only [CalculatorState.calculate, hop, if_neg hprev, heng, hce,
          Option.toList_some]
        refine ⟨?_, ?_, ?_⟩
        · rw [hh]
          exact lastN_concat log _
        · rw [chronological, List.pairwise_append]
          refine ⟨hc, List.pairwise_singleton _ _, ?_⟩
          intro x hx y hy
          rcases List.mem_singleton.mp hy with rfl
          exact ht x hx
        · intro x hx
          rcases List.mem_append.mp hx with hx | hx
          · have := ht x hx
            show x.timestamp < st.clock + 1
            omega
          · rcases List.mem_singleton.mp hx with rfl
            show st.clock < st.clock + 1
            omega

theorem histInv_step {st : CalculatorState} {log : List HistoryEntry}
    (hinv : HistoryInv st log) (a : CalcAction) :
    HistoryInv (a.step st)
      (match a with | .clearAll => [] | _ => log ++ actLog a st) := by
  obtain ⟨hh, hc, ht⟩ := hinv
  cases a with
  | input v =>
    simp only [CalcAction.step, actLog, List.append_nil]
    rw [CalculatorState.updateInput]
    by_cases h1 : v = ['.']
    · rw [if_pos h1]
      by_cases h2 : '.' ∈ st.currentInput
      · rw [if_pos h2]
        exact ⟨hh, hc, ht⟩
      · rw [if_neg h2]
        exact ⟨hh, hc, ht⟩
    · rw [if_neg h1]
      by_cases h2 : st.currentInput = defaultDisplay ∨ st.shouldResetDisplay = true
      · rw [if_pos h2]
        exact ⟨hh, hc, ht⟩
      · rw [if_neg h2]
        by_cases h3 : st.currentInput.length < 16
        · rw [if_pos h3]
          exact ⟨hh, hc, ht⟩
        · rw [if_neg h3]
          exact ⟨hh, hc, ht⟩
  | oper c =>
    simp only [CalcAction.step, actLog]
    rw [CalculatorState.applyOperator]
    by_cases hcond : st.operator.isSome = true ∧ st.shouldResetDisplay = false
    · rw [if_pos hcond]
      have hcalc := histInv_calculate ⟨hh, hc, ht⟩
      rw [if_pos hcond]
      rcases hc2 : st.calculate with ⟨st1, err⟩
      rw [hc2] at hcalc
      rcases err with _ | e
      · exact hcalc
      · exact hcalc
    · rw [if_neg hcond, if_neg hcond, List.append_nil]
      exact ⟨hh, hc, ht⟩
  | equals =>
    simp only [CalcAction.step, actLog]
    exact histInv_calculate ⟨hh, hc, ht⟩
  | back =>
    simp only [CalcAction.step, actLog, List.append_nil]
    rw [CalculatorState.backspace]
    by_cases hlen : 1 < st.currentInput.length
    · rw [if_pos hlen]
      exact ⟨hh, hc, ht⟩
    · rw [if_neg hlen]
      exact ⟨hh, hc, ht⟩
  | clearAll =>
    simp only [CalcAction.step]
    refine ⟨rfl, List.Pairwise.nil, ?_⟩
    intro e he
    cases he

theorem histInv_foldl :
    ∀ (acts : List CalcAction) (p : CalculatorState × List HistoryEntry),
      HistoryInv p.1 p.2 →
      HistoryInv
        (acts.foldl (fun p a =>
          (a.step p.1, match a with | .clearAll => [] | _ => p.2 ++ actLog a p.1)) p).1
        (acts.foldl (fun p a =>
          (a.step p.1, match a with | .clearAll => [] | _ => p.2 ++ actLog a p.1)) p).2 := by
  intro acts
  induction acts with
  | nil => exact fun p hp => hp
  | cons a rest ih =>
    intro p hp
    rw [List.foldl_cons]
    refine ih _ ?_
    cases a with
    | input v => exact histInv_step hp (.input v)
    | oper c => exact histInv_step hp (.oper c)
    | equals => exact histInv_step hp .equals
    | back => exact histInv_step hp .back
    | clearAll => exact histInv_step hp .clearAll

theorem runCalcLog_fst :
    ∀ (acts : List CalcAction) (p : CalculatorState × List HistoryEntry),
      (acts.foldl (fun p a =>
        (a.step p.1, match a with | .clearAll => [] | _ => p.2 ++ actLog a p.1)) p).1
        = acts.foldl (fun st a => a.step st) p.1 := by
  intro acts
  induction acts with
  | nil => exact fun p => rfl
  | cons a rest ih =>
    intro p
    rw [List.foldl_cons, List.foldl_cons]
    exact ih _

theorem histInv_run (acts : List CalcAction) :
    HistoryInv (runCalc acts) (runCalcLog acts).2 := by
  have h := histInv_foldl acts (CalculatorState.initial, [])
    ⟨rfl, List.Pairwise.nil, by intro e he; cases he⟩
  rw [runCalcLog]
  have hfst := runCalcLog_fst acts (CalculatorState.initial, [])
  rw [runCalc]
  rw [hfst] at h
  exact h

/-! ## C9: bounded chronological history -/

/-- C9: after any event sequence, `getHistory()` is exactly the last ten
entries of the log of successful calculations since the last clear — so
once more than ten have succeeded it holds exactly ten entries, the ten
most recent, in chronological order — and a `clear()` empties it. -/
theorem c9_history_bound (acts : List CalcAction) :
    (runCalc acts).getHistory = lastN 10 (runCalcLog acts).2
      ∧ (10 < (runCalcLog acts).2.length → (runCalc acts).getHistory.length = 10)
      ∧ chronological (runCalc acts).getHistory
      ∧ (runCalc (acts ++ [CalcAction.clearAll])).getHistory = [] := by
  obtain ⟨hh, hc, _⟩ := histInv_run acts
  refine ⟨hh, ?_, ?_, ?_⟩
  · intro hlen
    show (runCalc acts).history.length = 10
    rw [hh, lastN_length]
    omega
  · show chronological (runCalc acts).history
    rw [hh, lastN]
    exact hc.sublist (List.drop_sublist _ _)
  · rw [runCalc, List.foldl_append]
    rfl

/-- Witness for C9: an eleven-calculation sequence ends with exactly the
ten most recent entries. -/
theorem c9_history_bound_witness :
    (runCalc ([.input ['1'], .oper '+', .input ['1'], .equals]
        ++ (List.replicate 10 [CalcAction.oper '+', .input ['1'], .equals]).flatten)).getHistory.length
      = 10 := by
  refine (c9_history_bound ([.input ['1'], .oper '+', .input ['1'], .equals]
    ++ (List.replicate 10 [CalcAction.oper '+', .input ['1'], .equals]).flatten)).2.1 ?_
  decide
